import Mathlib

/-! # Teleport auto-reviewer: rule compilation, policy evaluation, watcher, refresh

A shallow embedding of `teleport/client.go` (package `teleport`), of the
configuration types of `config/config.go` and of the identity manager of
`internal/identity/manager.go`.

* The Go standard library package `regexp` is not part of the repository.  The
  embedding is parametric in it (`RegexpPkg`): every general statement holds
  for any compile function and any match function.  A small executable model
  of the RE2 fragment used by the examples (`goRegexp`) instantiates it where
  a concrete pattern has to be run.
* `sync.RWMutex` is not modelled: every method is one atomic step on the
  client state, and the calls are interleaved at that granularity.
* `time.Now()`, the outcome of `client.New`, of `NewWatcher`, of
  `GetAccessRequests`, of `SetAccessRequestState` and of `os.Stat`, the
  credentials object a load returns, and the cases chosen by `select` are
  inputs supplied by the environment.
* `logger.Printf` calls of the watcher and of the refresh are recorded as
  `Effect.log` entries of the trace; the log lines of `compileRules` and the
  per-rule log lines inside `shouldReject` are not recorded.
-/

set_option linter.dupNamespace false

namespace Autoreviewer

/-! ## The regular expression package -/

/-- The three things `client.go` uses from Go's `regexp`: the type
`*regexp.Regexp`, `regexp.Compile` and `(*Regexp).MatchString`. -/
structure RegexpPkg where
  Regexp : Type
  Compile : String → Except String Regexp
  MatchString : Regexp → String → Bool

/-- Regular expressions of the modelled RE2 fragment.  `bot` and `eot` are the
assertions written `^` and `$` (beginning and end of text: `regexp.Compile`
does not set the multi-line flag). -/
inductive Re where
  | fail
  | eps
  | lit (c : Char)
  | dot
  | cls (neg : Bool) (ranges : List (Char × Char))
  | bot
  | eot
  | seq (a b : Re)
  | alt (a b : Re)
  | star (a : Re)
  deriving DecidableEq

namespace Re

/-- Whether `c` lies in one of the ranges of a character class. -/
def inRanges (c : Char) : List (Char × Char) → Bool
  | [] => false
  | (lo, hi) :: rest => (decide (lo.toNat ≤ c.toNat) && decide (c.toNat ≤ hi.toNat)) || inRanges c rest

/-- Whether `r` matches the empty string at a position that is the beginning
of the text (`atStart`) and/or its end (`atEnd`). -/
def nullable (atStart atEnd : Bool) : Re → Bool
  | fail => false
  | eps => true
  | lit _ => false
  | dot => false
  | cls _ _ => false
  | bot => atStart
  | eot => atEnd
  | seq a b => nullable atStart atEnd a && nullable atStart atEnd b
  | alt a b => nullable atStart atEnd a || nullable atStart atEnd b
  | star _ => true

/-- Brzozowski derivative: what remains of `r` after it has consumed `c` at a
position that is the beginning of the text iff `atStart` (it is not the end,
since `c` is there).  Without the `s` flag `.` does not match a newline. -/
def deriv (c : Char) (atStart : Bool) : Re → Re
  | fail => fail
  | eps => fail
  | lit d => if c = d then eps else fail
  | dot => if c = '\n' then fail else eps
  | cls neg rs => if inRanges c rs != neg then eps else fail
  | bot => fail
  | eot => fail
  | seq a b =>
    if nullable atStart false a then alt (seq (deriv c atStart a) b) (deriv c atStart b)
    else seq (deriv c atStart a) b
  | alt a b => alt (deriv c atStart a) (deriv c atStart b)
  | star a => seq (deriv c atStart a) (star a)

/-- Whether `r` matches a prefix of `cs`, the text that starts at the current
position. -/
def matchPrefix : Re → List Char → Bool → Bool
  | r, [], atStart => nullable atStart true r
  | r, c :: cs, atStart => nullable atStart false r || matchPrefix (deriv c atStart r) cs false

/-- Unanchored search, as `MatchString` does: whether `r` matches some
substring of the text, trying every start position. -/
def search : Re → List Char → Bool → Bool
  | r, [], atStart => matchPrefix r [] atStart
  | r, c :: cs, atStart => matchPrefix r (c :: cs) atStart || search r cs false

end Re

/-- One open group of the pattern being parsed: the alternatives finished so
far and the items of the concatenation in progress, most recent first. -/
structure Frame where
  alts : List Re
  cur : List Re

/-- Concatenation of the items of a frame (kept most recent first). -/
def seqOf (items : List Re) : Re :=
  items.foldl (fun acc x => Re.seq x acc) Re.eps

/-- The expression of a finished group: the alternation of its alternatives. -/
def closeFrame (f : Frame) : Re :=
  f.alts.foldl (fun acc x => Re.alt x acc) (seqOf f.cur)

/-- Whether a backslash turns the character into itself: the ASCII characters
that are neither letters nor digits. -/
def isPunct (c : Char) : Bool :=
  decide (c.toNat < 128) && !c.isAlphanum

/-- The items of a bracket expression up to its closing `]`; `first` is true
on the first item, where `]` stands for itself.  Returns the ranges and the
rest of the pattern. -/
def parseClass : Nat → List Char → Bool → List (Char × Char) → Except String (List (Char × Char) × List Char)
  | 0, _, _, _ => .error "missing closing ]"
  | _ + 1, [], _, _ => .error "missing closing ]"
  | n + 1, c :: cs, first, acc =>
    if c = ']' ∧ first = false then .ok (acc.reverse, cs)
    else if c = '\\' then .error "unsupported: escape in character class"
    else if c = '[' ∧ cs.head? = some ':' then .error "unsupported: named character class"
    else
      match cs with
      | '-' :: d :: rest =>
        if d = ']' then parseClass n cs false ((c, c) :: acc)
        else if d = '\\' then .error "unsupported: escape in character class"
        else if d.toNat < c.toNat then .error "invalid character class range"
        else parseClass n rest false ((c, d) :: acc)
      | _ => parseClass n cs false ((c, c) :: acc)

/-- The parser of the fragment: literals, `.`, `^`, `$`, the postfix operators
`*`, `+`, `?` (each optionally followed by the non-greedy `?`), `|`, capturing
groups, bracket expressions with ranges and negation, and a backslash before
an ASCII character that is neither a letter nor a digit.  The errors `missing closing ]`, `missing closing )`,
`unexpected )`, `missing argument to repetition operator`, `invalid nested
repetition operator`, `invalid character class range` and `trailing backslash`
are those of Go; patterns outside the fragment (counted repetition, group
flags, Perl and named classes) are reported as `unsupported`.  `rep` records
that the previous token was a repetition operator. -/
def parseLoop : Nat → List Char → List Frame → Frame → Bool → Except String Re
  | 0, _, _, _, _ => .error "internal error"
  | _ + 1, [], stack, fr, _ =>
    if stack.isEmpty then .ok (closeFrame fr) else .error "missing closing )"
  | n + 1, c :: cs, stack, fr, rep =>
    if c = '(' then
      if cs.head? = some '?' then .error "unsupported: group flags"
      else parseLoop n cs (fr :: stack) ⟨[], []⟩ false
    else if c = ')' then
      match stack with
      | [] => .error "unexpected )"
      | p :: st => parseLoop n cs st ⟨p.alts, closeFrame fr :: p.cur⟩ false
    else if c = '|' then parseLoop n cs stack ⟨seqOf fr.cur :: fr.alts, []⟩ false
    else if c = '*' ∨ c = '+' ∨ c = '?' then
      if rep then .error "invalid nested repetition operator"
      else
        match fr.cur with
        | [] => .error "missing argument to repetition operator"
        | x :: xs =>
          let y := if c = '*' then Re.star x else if c = '+' then Re.seq x (Re.star x) else Re.alt x Re.eps
          match cs with
          | '?' :: cs2 => parseLoop n cs2 stack ⟨fr.alts, y :: xs⟩ true
          | _ => parseLoop n cs stack ⟨fr.alts, y :: xs⟩ true
    else if c = '.' then parseLoop n cs stack ⟨fr.alts, Re.dot :: fr.cur⟩ false
    else if c = '^' then parseLoop n cs stack ⟨fr.alts, Re.bot :: fr.cur⟩ false
    else if c = '$' then parseLoop n cs stack ⟨fr.alts, Re.eot :: fr.cur⟩ false
    else if c = '{' then .error "unsupported: counted repetition"
    else if c = '[' then
      match cs with
      | '^' :: cs2 =>
        match parseClass (cs2.length + 1) cs2 true [] with
        | .error e => .error e
        | .ok (rs, rest) => parseLoop n rest stack ⟨fr.alts, Re.cls true rs :: fr.cur⟩ false
      | _ =>
        match parseClass (cs.length + 1) cs true [] with
        | .error e => .error e
        | .ok (rs, rest) => parseLoop n rest stack ⟨fr.alts, Re.cls false rs :: fr.cur⟩ false
    else if c = '\\' then
      match cs with
      | [] => .error "trailing backslash at end of expression"
      | d :: cs2 =>
        if isPunct d then parseLoop n cs2 stack ⟨fr.alts, Re.lit d :: fr.cur⟩ false
        else .error "unsupported: escape sequence"
    else parseLoop n cs stack ⟨fr.alts, Re.lit c :: fr.cur⟩ false

/-- Model of `regexp.Compile` on the fragment. -/
def compileRe (pattern : String) : Except String Re :=
  parseLoop (pattern.length + 1) pattern.toList [] ⟨[], []⟩ false

/-- Model of `(*Regexp).MatchString`. -/
def matchRe (r : Re) (s : String) : Bool :=
  Re.search r s.toList true

/-- Go's `regexp` on the modelled fragment. -/
@[reducible] def goRegexp : RegexpPkg where
  Regexp := Re
  Compile := compileRe
  MatchString := matchRe

/-! ## Configuration (`config/config.go`) -/

/-- `config.RejectionRule`: one rule definition; an absent YAML key leaves the
empty string. -/
structure RejectionRule where
  Name : String
  ReasonRegex : String
  Message : String
  RolesRegex : String
  deriving DecidableEq

/-- The `Teleport` section of `config.Config`; the refresh interval is in
nanoseconds, as `time.Duration`. -/
structure TeleportSection where
  Addr : String
  Identity : String
  Reviewer : String
  IdentityRefreshInterval : Int

/-- The `Server` section of `config.Config`. -/
structure ServerSection where
  HealthPort : Int
  HealthPath : String

/-- The `Rejection` section of `config.Config`. -/
structure RejectionSection where
  DefaultMessage : String
  Rules : List RejectionRule

/-- `config.Config`. -/
structure Config where
  Teleport : TeleportSection
  Server : ServerSection
  Rejection : RejectionSection

/-! ## Client state (`teleport/client.go`) -/

/-- A reading of `time.Now()`; `0` is the zero `time.Time`. -/
abbrev Time := Nat

/-- Identity of a connection (`*client.Client` of the Teleport API). -/
abbrev ConnId := Nat

/-- `CompiledRule`: a matcher that is `none` is the nil pointer. -/
structure CompiledRule (L : RegexpPkg) where
  Name : String
  ReasonRegex : Option L.Regexp
  RolesRegex : Option L.Regexp
  Message : String

/-- `HealthStatus`. -/
structure HealthStatus where
  TeleportConnected : Bool
  IdentityValid : Bool
  LastRefresh : Time
  deriving DecidableEq

/-- `Client`: the embedded connection, the configuration, the compiled rules,
the health status and the time of the last request (logger and mutex left
out). -/
structure Client (L : RegexpPkg) where
  Client : Option ConnId
  config : Config
  compiledRules : List (CompiledRule L)
  healthStatus : HealthStatus
  lastRequestTime : Time

/-- `types.RequestState` of the Teleport API. -/
inductive RequestState where
  | NONE
  | PENDING
  | APPROVED
  | DENIED
  | PROMOTED
  deriving DecidableEq

/-- The part of `types.AccessRequest` the client reads: `GetName`, `GetRoles`,
`GetRequestReason`, `GetState`. -/
structure AccessRequest where
  Name : String
  Roles : List String
  RequestReason : String
  State : RequestState
  deriving DecidableEq

/-- `types.AccessRequestUpdate`, the fields `rejectRequest` sets. -/
structure AccessRequestUpdate where
  RequestID : String
  State : RequestState
  Reason : String
  deriving DecidableEq

/-- `types.OpType` of a watch event. -/
inductive OpType where
  | OpUnreliable
  | OpInvalid
  | OpInit
  | OpPut
  | OpDelete
  | OpGet
  deriving DecidableEq

/-- The resource of a watch event: an access request, or a resource of
another kind (the type assertion to `types.AccessRequest` fails on it).  An
event without a resource (a nil interface, on which `GetKind` cannot be
called) is not modelled. -/
inductive Resource where
  | accessRequest (req : AccessRequest)
  | other (kind : String)
  deriving DecidableEq

/-- `types.Event`; `EventType` is the field `Type`. -/
structure Event where
  EventType : OpType
  Resource : Resource
  deriving DecidableEq

/-- `trace.Wrap(err, msg)`: the error with a message in front. -/
def traceWrap (err : String) (msg : String) : String :=
  if msg = "" then err else msg ++ ": " ++ err

/-! ## Rule compilation -/

/-- The body of the loop of `compileRules`: the compiled form of one rule
definition, or the wrapped error of the first pattern that does not compile
(the reason pattern is compiled before the roles pattern; an empty pattern is
not compiled and leaves the matcher nil). -/
def compileRule (L : RegexpPkg) (rule : RejectionRule) : Except String (CompiledRule L) :=
  let compiledRule : CompiledRule L :=
    { Name := rule.Name, ReasonRegex := none, RolesRegex := none, Message := rule.Message }
  let withReason : Except String (CompiledRule L) :=
    if rule.ReasonRegex ≠ "" then
      match L.Compile rule.ReasonRegex with
      | .error err => .error (traceWrap err ("failed to compile reason regex for rule " ++ rule.Name))
      | .ok reasonRegex => .ok { compiledRule with ReasonRegex := some reasonRegex }
    else .ok compiledRule
  match withReason with
  | .error err => .error err
  | .ok compiledRule =>
    if rule.RolesRegex ≠ "" then
      match L.Compile rule.RolesRegex with
      | .error err => .error (traceWrap err ("failed to compile roles regex for rule " ++ rule.Name))
      | .ok rolesRegex => .ok { compiledRule with RolesRegex := some rolesRegex }
    else .ok compiledRule

/-- The loop of `compileRules` over the rule definitions: `acc` is
`c.compiledRules` so far.  On an error the loop returns at once and the rules
appended so far stay in the field. -/
def compileRulesLoop (L : RegexpPkg) : List RejectionRule → List (CompiledRule L) → List (CompiledRule L) × Option String
  | [], acc => (acc, none)
  | rule :: rest, acc =>
    match compileRule L rule with
    | .error err => (acc, some err)
    | .ok compiledRule => compileRulesLoop L rest (acc ++ [compiledRule])

/-- `(*Client).compileRules`: resets `c.compiledRules`, fills it from
`c.config.Rejection.Rules` and returns the client together with the error
(`none` is Go's nil error). -/
def compileRules {L : RegexpPkg} (c : Client L) : Client L × Option String :=
  let r := compileRulesLoop L c.config.Rejection.Rules []
  ({ c with compiledRules := r.1 }, r.2)

/-- `New`: `dial` is the outcome of `client.New`, `now` the reading of
`time.Now()`.  A connection error or a compilation error returns no client. -/
def New (L : RegexpPkg) (dial : Except String ConnId) (cfg : Config) (now : Time) : Except String (Client L) :=
  match dial with
  | .error err => .error (traceWrap err "")
  | .ok conn =>
    let client : Client L :=
      { Client := some conn, config := cfg, compiledRules := [],
        healthStatus := { TeleportConnected := true, IdentityValid := true, LastRefresh := now },
        lastRequestTime := 0 }
    match compileRules client with
    | (_, some err) => .error (traceWrap err "failed to compile rejection rules")
    | (client, none) => .ok client

/-- What it means for a compiled rule to be the compiled form of a rule
definition: same name and message, a matcher is absent exactly when the
pattern is empty, and a matcher that is present is the compilation of the
pattern. -/
def CompiledFrom (L : RegexpPkg) (rule : RejectionRule) (cr : CompiledRule L) : Prop :=
  cr.Name = rule.Name ∧ cr.Message = rule.Message ∧
  (cr.ReasonRegex = none ↔ rule.ReasonRegex = "") ∧
  (cr.RolesRegex = none ↔ rule.RolesRegex = "") ∧
  (∀ m, cr.ReasonRegex = some m → L.Compile rule.ReasonRegex = .ok m) ∧
  (∀ m, cr.RolesRegex = some m → L.Compile rule.RolesRegex = .ok m)

/-- A pattern of a rule definition that stops compilation: it is not empty
and `regexp.Compile` returns an error for it. -/
def BadPattern (L : RegexpPkg) (pattern : String) : Prop :=
  pattern ≠ "" ∧ ∃ err, L.Compile pattern = .error err

/-! ## Policy evaluation -/

/-- The inner loop of `shouldReject` over `req.GetRoles()`: `ruleApplies`
becomes true at the first role the roles regex matches. -/
def ruleAppliesLoop (L : RegexpPkg) (rolesRegex : L.Regexp) : List String → Bool
  | [] => false
  | role :: rest => if L.MatchString rolesRegex role then true else ruleAppliesLoop L rolesRegex rest

/-- The loop of `shouldReject` over the compiled rules.  Stage 1: a rule with a
roles regex is skipped unless some requested role matches it.  Stage 2: a rule
with a reason regex is returned when the reason does not match it; a rule
without a reason regex returns nothing and the loop goes on. -/
def shouldRejectLoop (L : RegexpPkg) : List (CompiledRule L) → AccessRequest → Option (CompiledRule L)
  | [], _ => none
  | rule :: rest, req =>
    let ruleApplies : Bool :=
      match rule.RolesRegex with
      | some rolesRegex => ruleAppliesLoop L rolesRegex req.Roles
      | none => true
    if !ruleApplies then shouldRejectLoop L rest req
    else
      match rule.ReasonRegex with
      | some reasonRegex =>
        if !L.MatchString reasonRegex req.RequestReason then some rule
        else shouldRejectLoop L rest req
      | none => shouldRejectLoop L rest req

/-- `(*Client).shouldReject`. -/
def shouldReject {L : RegexpPkg} (c : Client L) (req : AccessRequest) : Option (CompiledRule L) :=
  shouldRejectLoop L c.compiledRules req

/-- Stage 2 as `shouldReject` has it: the rule has a reason regex and the
request's reason does not match it. -/
def reasonRejects (L : RegexpPkg) (rule : CompiledRule L) (req : AccessRequest) : Bool :=
  match rule.ReasonRegex with
  | some reasonRegex => !L.MatchString reasonRegex req.RequestReason
  | none => false

/-- The role-applicability stage in the words of the specification: the rule
applies if it has no roles matcher, or if at least one requested role matches
it. -/
def Spec.roleStage (L : RegexpPkg) (rule : CompiledRule L) (req : AccessRequest) : Bool :=
  match rule.RolesRegex with
  | none => true
  | some m => req.Roles.any (fun role => L.MatchString m role)

/-- The reason stage in the words of the specification: with a reason matcher
the rule triggers if the reason does not match it; without one it triggers
unconditionally. -/
def Spec.reasonStage (L : RegexpPkg) (rule : CompiledRule L) (req : AccessRequest) : Bool :=
  match rule.ReasonRegex with
  | none => true
  | some m => !L.MatchString m req.RequestReason

/-- The operation `Decide` of the specification: the first rule, in order, for
which both stages hold. -/
def Spec.Decide (L : RegexpPkg) (rules : List (CompiledRule L)) (req : AccessRequest) : Option (CompiledRule L) :=
  rules.find? (fun rule => Spec.roleStage L rule req && Spec.reasonStage L rule req)

/-- The condition under which a rule is expected to deny a request: its role
stage passes (it has no roles matcher, or some requested role matches it) and
it has a reason matcher that does not match the request's reason. -/
def Triggers (L : RegexpPkg) (rule : CompiledRule L) (req : AccessRequest) : Prop :=
  (rule.RolesRegex = none ∨
      ∃ m role, rule.RolesRegex = some m ∧ role ∈ req.Roles ∧ L.MatchString m role = true) ∧
    ∃ m, rule.ReasonRegex = some m ∧ L.MatchString m req.RequestReason = false

/-! ## Effects of the watcher and of the refresh -/

/-- `(types.Resource).GetKind`. -/
def Resource.GetKind : Resource → String
  | .accessRequest _ => "access_request"
  | .other kind => kind

/-- The log lines of `WatchAccessRequests`, `processExistingRequests` and
`RefreshIdentity`, one constructor for each `Printf` with its arguments. -/
inductive LogMsg where
  | refreshingIdentity (path : String)
  | refreshedIdentity
  | startedWatching
  | checkingExisting
  | errorProcessingExisting (err : String)
  | receivedEvent (type : OpType) (kind : String)
  | ignoringEventType (type : OpType)
  | notAnAccessRequest (kind : String)
  | processingRequest (name : String) (state : RequestState) (reason : String)
  | notPending (name : String) (state : RequestState)
  | failedToReject (name err : String)
  | rejected (name ruleName message : String)
  | noRuleMatched (name : String)
  | foundExisting (n : Nat)
  | processingExisting (name reason : String)
  | failedToRejectExisting (name err : String)
  | rejectedExisting (name ruleName message : String)
  | existingNoRuleMatched (name : String)
  deriving DecidableEq

/-- What a method does besides changing the client: log lines, calls on the
connection `c.Client` (with the connection they go through), calls of
`shouldReject`, and the closing of a watcher or of a connection. -/
inductive Effect where
  | log (msg : LogMsg)
  | newWatcher (conn : Option ConnId)
  | closeWatcher
  | getAccessRequests (conn : Option ConnId)
  | shouldReject (req : AccessRequest)
  | setAccessRequestState (conn : Option ConnId) (upd : AccessRequestUpdate)
  | close (conn : ConnId)
  deriving DecidableEq

/-- What the environment supplies while one request is handled: the reading of
`time.Now()` and the error `SetAccessRequestState` returns if it is called
(`none` is nil). -/
structure CallEnv where
  now : Time
  setState : Option String

/-- `(*Client).rejectRequest`: the message is the rule's, or the configured
default when the rule's is empty; one `SetAccessRequestState` call with state
`DENIED`, whose error is returned. -/
def rejectRequest {L : RegexpPkg} (c : Client L) (req : AccessRequest) (rule : CompiledRule L) (setState : Option String) : List Effect × Option String :=
  let message := if rule.Message = "" then c.config.Rejection.DefaultMessage else rule.Message
  ([Effect.setAccessRequestState c.Client
      { RequestID := req.Name, State := RequestState.DENIED, Reason := message }], setState)

/-- The body of the `for _, req := range requests` loop of
`processExistingRequests`, for one request. -/
def processExistingOne {L : RegexpPkg} (c : Client L) (req : AccessRequest) (env : CallEnv) : Client L × List Effect :=
  let c : Client L := { c with lastRequestTime := env.now }
  match shouldReject c req with
  | some rule =>
    let r := rejectRequest c req rule env.setState
    match r.2 with
    | some err =>
      (c, [Effect.log (.processingExisting req.Name req.RequestReason), Effect.shouldReject req] ++ r.1
            ++ [Effect.log (.failedToRejectExisting req.Name err)])
    | none =>
      (c, [Effect.log (.processingExisting req.Name req.RequestReason), Effect.shouldReject req] ++ r.1
            ++ [Effect.log (.rejectedExisting req.Name rule.Name rule.Message)])
  | none =>
    (c, [Effect.log (.processingExisting req.Name req.RequestReason), Effect.shouldReject req,
         Effect.log (.existingNoRuleMatched req.Name)])

/-- The loop of `processExistingRequests`; `env i` is the environment of the
`i`-th request still to be processed. -/
def processExistingLoop {L : RegexpPkg} (c : Client L) : List AccessRequest → (Nat → CallEnv) → Client L × List Effect
  | [], _ => (c, [])
  | req :: rest, env =>
    let r := processExistingOne c req (env 0)
    let r2 := processExistingLoop r.1 rest (fun i => env (i + 1))
    (r2.1, r.2 ++ r2.2)

/-- `(*Client).processExistingRequests`: `listing` is the outcome of
`GetAccessRequests` with the filter `State: PENDING`. -/
def processExistingRequests {L : RegexpPkg} (c : Client L) (listing : Except String (List AccessRequest)) (env : Nat → CallEnv) : Client L × List Effect × Option String :=
  match listing with
  | .error err =>
    (c, [Effect.getAccessRequests c.Client], some (traceWrap err "failed to get existing access requests"))
  | .ok requests =>
    let r := processExistingLoop c requests env
    (r.1, [Effect.getAccessRequests c.Client, Effect.log (.foundExisting requests.length)] ++ r.2, none)

/-- The body of `case event := <-watcher.Events()` in the loop of
`WatchAccessRequests`. -/
def handleEvent {L : RegexpPkg} (c : Client L) (event : Event) (env : CallEnv) : Client L × List Effect :=
  let received := Effect.log (.receivedEvent event.EventType event.Resource.GetKind)
  if event.EventType ≠ OpType.OpPut then
    (c, [received, Effect.log (.ignoringEventType event.EventType)])
  else
    match event.Resource with
    | .other kind => (c, [received, Effect.log (.notAnAccessRequest kind)])
    | .accessRequest req =>
      let processing := Effect.log (.processingRequest req.Name req.State req.RequestReason)
      if req.State ≠ RequestState.PENDING then
        (c, [received, processing, Effect.log (.notPending req.Name req.State)])
      else
        let c : Client L := { c with lastRequestTime := env.now }
        match shouldReject c req with
        | some rule =>
          let r := rejectRequest c req rule env.setState
          match r.2 with
          | some err =>
            (c, [received, processing, Effect.shouldReject req] ++ r.1
                  ++ [Effect.log (.failedToReject req.Name err)])
          | none =>
            (c, [received, processing, Effect.shouldReject req] ++ r.1
                  ++ [Effect.log (.rejected req.Name rule.Name rule.Message)])
        | none =>
          (c, [received, processing, Effect.shouldReject req, Effect.log (.noRuleMatched req.Name)])

/-- The case `select` takes in one iteration of the loop: an event arrives, or
the context is done (`err` is `ctx.Err()`). -/
inductive SelectCase where
  | event (event : Event) (env : CallEnv)
  | done (err : String)

/-- Whether a call of `WatchAccessRequests` has returned (with its error, which
is never nil) or is still blocked in `select`. -/
inductive WatchOutcome where
  | returned (err : String)
  | waiting
  deriving DecidableEq

/-- The `for { select { ... } }` loop of `WatchAccessRequests` on the cases the
environment supplies; when they are used up the loop is blocked in `select`. -/
def watchLoop {L : RegexpPkg} (c : Client L) : List SelectCase → Client L × List Effect × WatchOutcome
  | [] => (c, [], WatchOutcome.waiting)
  | .done err :: _ => (c, [], WatchOutcome.returned err)
  | .event event env :: rest =>
    let r := handleEvent c event env
    let r2 := watchLoop r.1 rest
    (r2.1, r.2 ++ r2.2.1, r2.2.2)

/-- `(*Client).WatchAccessRequests`: `newWatcher` is the error of `NewWatcher`
(`none` is nil), `listing` and `env` feed the replay of the existing requests,
`cases` the loop.  The deferred `watcher.Close()` runs when the call returns. -/
def WatchAccessRequests {L : RegexpPkg} (c : Client L) (newWatcher : Option String) (listing : Except String (List AccessRequest)) (env : Nat → CallEnv) (cases : List SelectCase) : Client L × List Effect × WatchOutcome :=
  match newWatcher with
  | some err =>
    ({ c with healthStatus := { c.healthStatus with TeleportConnected := false } },
      [Effect.newWatcher c.Client], WatchOutcome.returned (traceWrap err ""))
  | none =>
    let r1 := processExistingRequests c listing env
    let logged : List Effect :=
      match r1.2.2 with
      | some err => [Effect.log (.errorProcessingExisting err)]
      | none => []
    let r2 := watchLoop r1.1 cases
    let deferred : List Effect :=
      match r2.2.2 with
      | .returned _ => [Effect.closeWatcher]
      | .waiting => []
    (r2.1,
      [Effect.newWatcher c.Client, Effect.log .startedWatching, Effect.log .checkingExisting]
        ++ r1.2.1 ++ logged ++ r2.2.1 ++ deferred,
      r2.2.2)

/-- `(*Client).RefreshIdentity`: `dial` is the outcome of `client.New` with the
reloaded identity, `now` the reading of `time.Now()`. -/
def RefreshIdentity {L : RegexpPkg} (c : Client L) (dial : Except String ConnId) (now : Time) : Client L × List Effect × Option String :=
  match dial with
  | .error err =>
    ({ c with healthStatus := { c.healthStatus with TeleportConnected := false, IdentityValid := false } },
      [Effect.log (.refreshingIdentity c.config.Teleport.Identity)], some (traceWrap err ""))
  | .ok newClient =>
    let closing : List Effect :=
      match c.Client with
      | some old => [Effect.close old]
      | none => []
    ({ c with Client := some newClient,
              healthStatus := { TeleportConnected := true, IdentityValid := true, LastRefresh := now } },
      [Effect.log (.refreshingIdentity c.config.Teleport.Identity)] ++ closing
        ++ [Effect.log .refreshedIdentity], none)

/-- The state transitions (`SetAccessRequestState` calls) of a trace. -/
def transitionsOf : List Effect → List AccessRequestUpdate
  | [] => []
  | .setAccessRequestState _ upd :: rest => upd :: transitionsOf rest
  | _ :: rest => transitionsOf rest

/-- The requests `shouldReject` was called on, in the order of the calls. -/
def evaluatedOf : List Effect → List AccessRequest
  | [] => []
  | .shouldReject req :: rest => req :: evaluatedOf rest
  | _ :: rest => evaluatedOf rest

/-- The connections a trace closes. -/
def closedOf : List Effect → List ConnId
  | [] => []
  | .close conn :: rest => conn :: closedOf rest
  | _ :: rest => closedOf rest

/-! ## The process: refresh ticks interleaved with the watcher (`main.go`) -/

/-- Where the goroutine that runs `WatchAccessRequests` stands: not started,
blocked in `select` with an open subscription that was established on `conn`,
or returned. -/
inductive WatcherStatus where
  | notStarted
  | running (conn : Option ConnId)
  | returned (err : String)
  deriving DecidableEq

/-- State of the process after `run` has created the client: the client, the
trace of effects so far, the identity the next connection `client.New`
establishes will have, and the watcher. -/
structure Sys (L : RegexpPkg) where
  client : Client L
  trace : List Effect
  fresh : ConnId
  watcher : WatcherStatus

/-- The atomic steps of the process: a tick of `runIdentityRefresh` (one call
of `RefreshIdentity`, whose `client.New` succeeds iff `dialOk`), the start of
`WatchAccessRequests` up to its first `select`, and one iteration of its
loop. -/
inductive Step where
  | refreshTick (dialOk : Bool) (now : Time)
  | watchStart (newWatcher : Option String) (listing : Except String (List AccessRequest)) (env : Nat → CallEnv)
  | watchSelect (case : SelectCase)

/-- One step of the process.  A watcher step that does not fit the watcher's
status changes nothing. -/
def Sys.step {L : RegexpPkg} (s : Sys L) : Step → Sys L
  | .refreshTick dialOk now =>
    let dial : Except String ConnId := if dialOk then .ok s.fresh else .error "connection failed"
    let r := RefreshIdentity s.client dial now
    { s with client := r.1, trace := s.trace ++ r.2.1, fresh := if dialOk then s.fresh + 1 else s.fresh }
  | .watchStart newWatcher listing env =>
    match s.watcher with
    | .notStarted =>
      let r := WatchAccessRequests s.client newWatcher listing env []
      { s with client := r.1, trace := s.trace ++ r.2.1,
               watcher := match r.2.2 with
                 | .returned err => WatcherStatus.returned err
                 | .waiting => WatcherStatus.running s.client.Client }
    | _ => s
  | .watchSelect case =>
    match s.watcher with
    | .running _ =>
      let r := watchLoop s.client [case]
      match r.2.2 with
      | .returned err =>
        { s with client := r.1, trace := s.trace ++ r.2.1 ++ [Effect.closeWatcher],
                 watcher := WatcherStatus.returned err }
      | .waiting => { s with client := r.1, trace := s.trace ++ r.2.1 }
    | _ => s

/-- A run of the process: the steps taken one after the other. -/
def Sys.run {L : RegexpPkg} (s : Sys L) : List Step → Sys L
  | [] => s
  | st :: rest => Sys.run (s.step st) rest

/-- The process as `run` of `main.go` leaves it once `teleport.New` has
returned a client: the first connection is `0`, nothing has happened yet. -/
def Sys.start (L : RegexpPkg) (cfg : Config) (now : Time) : Except String (Sys L) :=
  match New L (.ok 0) cfg now with
  | .error err => .error err
  | .ok c => .ok { client := c, trace := [], fresh := 1, watcher := WatcherStatus.notStarted }

/-- The connections of a reachable state: the client holds a connection that
`client.New` has handed out, every closed connection is older than it, and the
subscription of a running watcher was established on the current connection
or on one that has been closed since. -/
def Sys.Inv {L : RegexpPkg} (s : Sys L) : Prop :=
  ∃ k, s.client.Client = some k ∧ k < s.fresh ∧ (∀ j ∈ closedOf s.trace, j < k) ∧
    ∀ conn, s.watcher = WatcherStatus.running conn →
      conn = some k ∨ ∃ j ∈ closedOf s.trace, conn = some j

/-! ## The event stream around the watcher -/

/-- What happens around a watcher that is in its loop: the stream delivers an
event, the stream terminates for a reason of its own (the watcher's `Done`
channel closes and `Events` delivers nothing any more), or the context is
cancelled. -/
inductive Occurrence where
  | delivers (event : Event) (env : CallEnv)
  | streamEnds (err : String)
  | cancelled (err : String)

/-- The cases the `select` of `WatchAccessRequests` takes under the given
occurrences.  The `select` has the two cases `<-watcher.Events()` and
`<-ctx.Done()` and none for the watcher's `Done` channel: the end of the stream
is not a case, and after it (`ended`) nothing is delivered. -/
def selectCases : Bool → List Occurrence → List SelectCase
  | _, [] => []
  | ended, .delivers event env :: rest =>
    if ended then selectCases ended rest else SelectCase.event event env :: selectCases ended rest
  | _, .streamEnds _ :: rest => selectCases true rest
  | _, .cancelled err :: _ => [SelectCase.done err]

/-- The connections `NewWatcher` is called on in a trace. -/
def subscriptionsOf : List Effect → List (Option ConnId)
  | [] => []
  | .newWatcher conn :: rest => conn :: subscriptionsOf rest
  | _ :: rest => subscriptionsOf rest

/-- The connections `GetAccessRequests` is called on in a trace. -/
def listingsOf : List Effect → List (Option ConnId)
  | [] => []
  | .getAccessRequests conn :: rest => conn :: listingsOf rest
  | _ :: rest => listingsOf rest

/-! ## The identity manager (`internal/identity/manager.go`) -/

/-- Identity of a credentials object, the value one call of
`client.LoadIdentityFile` returns. -/
abbrev Cred := Nat

/-- A buffered channel of credentials: its capacity and the values waiting in
it, oldest first. -/
structure CredChan where
  cap : Nat
  buf : List Cred
  deriving DecidableEq

/-- The statement `select { case ch <- v: ... default: ... }` with no receiver
waiting: the value is put in the buffer if there is room, else the `default`
case runs and the value is not sent.  Returns the channel and whether the
value was sent. -/
def CredChan.trySend (ch : CredChan) (v : Cred) : CredChan × Bool :=
  if ch.buf.length < ch.cap then ({ ch with buf := ch.buf ++ [v] }, true) else (ch, false)

/-- A receive `<-ch`: the oldest value and the channel without it, or `none`
when the buffer is empty and the receive blocks. -/
def CredChan.recv (ch : CredChan) : Option (Cred × CredChan) :=
  match ch.buf with
  | [] => none
  | v :: rest => some (v, { ch with buf := rest })

/-- `Manager`: the path, the interval in nanoseconds, the current credentials
(`none` is the nil interface) and the update channel (`stopCh`, the mutex and
the logger left out). -/
structure Manager where
  identityPath : String
  refreshInterval : Int
  currentCreds : Option Cred
  credUpdateCh : CredChan
  deriving DecidableEq

/-- `NewManager`: the update channel is made with capacity one. -/
def NewManager (identityPath : String) (refreshInterval : Int) : Manager :=
  { identityPath := identityPath, refreshInterval := refreshInterval, currentCreds := none,
    credUpdateCh := { cap := 1, buf := [] } }

/-- `(*Manager).loadCredentials`: `loaded` is the object `client.LoadIdentityFile`
returns; the error is always nil. -/
def Manager.loadCredentials (_m : Manager) (loaded : Cred) : Except String Cred :=
  .ok loaded

/-- `(*Manager).GetCredentials`. -/
def Manager.GetCredentials (m : Manager) : Option Cred :=
  m.currentCreds

/-- `(*Manager).CredentialUpdates`. -/
def Manager.CredentialUpdates (m : Manager) : CredChan :=
  m.credUpdateCh

/-- `(*Manager).refreshCredentials`: `stat` is the error of `os.Stat` (`none`
is nil), `loaded` the object the load returns.  The new credentials become
current; they are sent on the update channel only if it has room. -/
def Manager.refreshCredentials (m : Manager) (stat : Option String) (loaded : Cred) : Manager × Option String :=
  match stat with
  | some err => (m, some (traceWrap err "failed to stat identity file"))
  | none =>
    match m.loadCredentials loaded with
    | .error err => (m, some (traceWrap err "failed to load credentials"))
    | .ok newCreds =>
      let m : Manager := { m with currentCreds := some newCreds }
      ({ m with credUpdateCh := (m.credUpdateCh.trySend newCreds).1 }, none)

/-- The case the `select` of the loop of `Start` takes: the context is done,
`stopCh` is closed, or the ticker fires (with what `refreshCredentials` then
gets from the environment). -/
inductive StartCase where
  | ctxDone (err : String)
  | stop
  | tick (stat : Option String) (loaded : Cred)
  deriving DecidableEq

/-- Whether a call of `Start` has returned (with its error, `none` is nil) or
is blocked in `select`. -/
inductive StartOutcome where
  | returned (err : Option String)
  | waiting
  deriving DecidableEq

/-- The `for { select { ... } }` loop of `Start`. -/
def Manager.startLoop (m : Manager) : List StartCase → Manager × StartOutcome
  | [] => (m, StartOutcome.waiting)
  | .ctxDone err :: _ => (m, StartOutcome.returned (some err))
  | .stop :: _ => (m, StartOutcome.returned none)
  | .tick stat loaded :: rest => Manager.startLoop (m.refreshCredentials stat loaded).1 rest

/-- `(*Manager).Start`: loads the initial credentials (`loaded`), makes them
current, sends them on the update channel if it has room, then runs the
loop. -/
def Manager.Start (m : Manager) (loaded : Cred) (cases : List StartCase) : Manager × StartOutcome :=
  match m.loadCredentials loaded with
  | .error err => (m, StartOutcome.returned (some (traceWrap err "failed to load initial credentials")))
  | .ok creds =>
    let m : Manager := { m with currentCreds := some creds }
    let m : Manager := { m with credUpdateCh := (m.credUpdateCh.trySend creds).1 }
    Manager.startLoop m cases

/-- A consumer's receive from the channel `CredentialUpdates` returns: the
value and the manager after it, or `none` when the receive blocks. -/
def Manager.receive (m : Manager) : Option (Cred × Manager) :=
  match m.CredentialUpdates.recv with
  | none => none
  | some (v, ch) => some (v, { m with credUpdateCh := ch })

/-- The credentials of the last update among the cases that succeeded, `c0`
if there is none. -/
def lastLoaded (c0 : Cred) : List StartCase → Cred
  | [] => c0
  | .tick none loaded :: rest => lastLoaded loaded rest
  | _ :: rest => lastLoaded c0 rest

/-- Whether every case is a tick of the ticker. -/
def onlyTicks : List StartCase → Bool
  | [] => true
  | .tick _ _ :: rest => onlyTicks rest
  | _ :: _ => false

/-! ## Concrete configurations used by the examples -/

/-- A configuration with the given rules. -/
def exampleConfig (rules : List RejectionRule) : Config :=
  { Teleport := { Addr := "teleport.example.com:443", Identity := "/etc/identity", Reviewer := "bot",
                  IdentityRefreshInterval := 0 },
    Server := { HealthPort := 8080, HealthPath := "/health" },
    Rejection := { DefaultMessage := "Access request rejected due to policy violation", Rules := rules } }

/-- Rule A of the specification: roles pattern `.*admin.*`, no reason pattern. -/
def defA : RejectionRule :=
  { Name := "A", ReasonRegex := "", Message := "admin roles are reviewed by hand", RolesRegex := ".*admin.*" }

/-- Rule B of the specification: no roles pattern, reason pattern `^ok$`. -/
def defB : RejectionRule :=
  { Name := "B", ReasonRegex := "^ok$", Message := "the reason must be ok", RolesRegex := "" }

/-- The justification rule, with an empty message. -/
def defJ : RejectionRule :=
  { Name := "J", ReasonRegex := "^justification:.+", Message := "", RolesRegex := "" }

/-- A rule with both patterns. -/
def defR : RejectionRule :=
  { Name := "R", ReasonRegex := "^ticket [0-9]+$", Message := "a ticket is required", RolesRegex := "^prod-" }

/-- A rule whose reason pattern is not a regular expression. -/
def defBad : RejectionRule :=
  { Name := "bad", ReasonRegex := "[", Message := "never used", RolesRegex := "" }

/-- The client `New` builds for `exampleConfig rules` on connection `0` at
time `0`, before it calls `compileRules`. -/
def blankClient (rules : List RejectionRule) : Client goRegexp :=
  { Client := some 0, config := exampleConfig rules, compiledRules := [],
    healthStatus := { TeleportConnected := true, IdentityValid := true, LastRefresh := 0 },
    lastRequestTime := 0 }

/-- The client after `compileRules`: the one `New` returns for
`exampleConfig rules` on connection `0` at time `0` when the rules compile. -/
def clientWith (rules : List RejectionRule) : Client goRegexp :=
  (compileRules (blankClient rules)).1

/-- The request of the first example of the specification. -/
def reqDbAdmin : AccessRequest :=
  { Name := "req-1", Roles := ["db-admin"], RequestReason := "not ok", State := RequestState.PENDING }

/-- A request without a justification. -/
def reqPlease : AccessRequest :=
  { Name := "req-2", Roles := ["editor"], RequestReason := "please", State := RequestState.PENDING }

/-- A request with a justification. -/
def reqJustified : AccessRequest :=
  { Name := "req-3", Roles := ["editor"], RequestReason := "justification: urgent fix",
    State := RequestState.PENDING }

/-- The denial of `reqPlease` with the default message. -/
def updPlease : AccessRequestUpdate :=
  { RequestID := "req-2", State := RequestState.DENIED,
    Reason := "Access request rejected due to policy violation" }

/-- One live `Put` event for `reqDbAdmin`, then cancellation. -/
def casesExample : List SelectCase :=
  [SelectCase.event ⟨OpType.OpPut, Resource.accessRequest reqDbAdmin⟩ ⟨7, none⟩,
   SelectCase.done "context canceled"]

/-- The process started with the justification rule. -/
def sysExample : Sys goRegexp :=
  { client := clientWith [defJ], trace := [], fresh := 1, watcher := WatcherStatus.notStarted }

/-- An environment in which every `SetAccessRequestState` call fails. -/
def envFailing : Nat → CallEnv :=
  fun i => { now := 100 + i, setState := some "connection reset" }

/-- An environment in which every `SetAccessRequestState` call succeeds. -/
def envOk : Nat → CallEnv :=
  fun i => { now := 100 + i, setState := none }

/-- The request `reqPlease` without any requested role. -/
def reqPleaseNoRoles : AccessRequest :=
  { Name := "req-4", Roles := [], RequestReason := "please", State := RequestState.PENDING }

/-- One event is delivered, then the stream terminates; the context is not
cancelled. -/
def occsStreamEnds : List Occurrence :=
  [Occurrence.delivers ⟨OpType.OpPut, Resource.accessRequest reqPlease⟩ ⟨7, none⟩,
   Occurrence.streamEnds "rpc error: code = Unavailable desc = EOF"]

/-- The watcher starts and subscribes, a refresh fails, a refresh succeeds. -/
def stepsExample : List Step :=
  [Step.watchStart none (.ok [reqPlease]) envOk, Step.refreshTick false 10, Step.refreshTick true 20]

/-! ## Policy evaluation: what `shouldReject` returns -/

theorem ruleAppliesLoop_eq_any (L : RegexpPkg) (m : L.Regexp) (roles : List String) :
    ruleAppliesLoop L m roles = roles.any (fun role => L.MatchString m role) := by
  induction roles with
  | nil => rfl
  | cons role rest ih =>
    simp only [ruleAppliesLoop, List.any_cons, ih]
    cases L.MatchString m role <;> simp

theorem roleStage_iff (L : RegexpPkg) (rule : CompiledRule L) (req : AccessRequest) :
    Spec.roleStage L rule req = true ↔
      (rule.RolesRegex = none ∨
        ∃ m role, rule.RolesRegex = some m ∧ role ∈ req.Roles ∧ L.MatchString m role = true) := by
  unfold Spec.roleStage
  cases h : rule.RolesRegex with
  | none => simp
  | some m =>
    simp only [List.any_eq_true, false_or, reduceCtorEq, Option.some.injEq]
    constructor
    · rintro ⟨role, hmem, hmatch⟩
      exact ⟨m, role, rfl, hmem, hmatch⟩
    · rintro ⟨m2, role, hm, hmem, hmatch⟩
      subst hm
      exact ⟨role, hmem, hmatch⟩

theorem reasonRejects_iff (L : RegexpPkg) (rule : CompiledRule L) (req : AccessRequest) :
    reasonRejects L rule req = true ↔
      ∃ m, rule.ReasonRegex = some m ∧ L.MatchString m req.RequestReason = false := by
  unfold reasonRejects
  cases h : rule.ReasonRegex with
  | none => simp
  | some m => simp

theorem shouldRejectLoop_cons (L : RegexpPkg) (rule : CompiledRule L) (rest : List (CompiledRule L))
    (req : AccessRequest) :
    shouldRejectLoop L (rule :: rest) req =
      if (Spec.roleStage L rule req && reasonRejects L rule req) = true then some rule
      else shouldRejectLoop L rest req := by
  obtain ⟨name, reason, roles, msg⟩ := rule
  cases roles with
  | none =>
    cases reason with
    | none => simp [shouldRejectLoop, Spec.roleStage, reasonRejects]
    | some m =>
      simp only [shouldRejectLoop, Spec.roleStage, reasonRejects]
      rcases Bool.eq_false_or_eq_true (L.MatchString m req.RequestReason) with h | h <;> simp [h]
  | some rm =>
    cases reason with
    | none =>
      simp only [shouldRejectLoop, Spec.roleStage, reasonRejects, ruleAppliesLoop_eq_any]
      rcases Bool.eq_false_or_eq_true (req.Roles.any fun role => L.MatchString rm role) with h | h <;>
        simp [h]
    | some m =>
      simp only [shouldRejectLoop, Spec.roleStage, reasonRejects, ruleAppliesLoop_eq_any]
      rcases Bool.eq_false_or_eq_true (req.Roles.any fun role => L.MatchString rm role) with h | h <;>
        rcases Bool.eq_false_or_eq_true (L.MatchString m req.RequestReason) with h2 | h2 <;>
        simp [h, h2]

theorem shouldRejectLoop_eq_find (L : RegexpPkg) (rules : List (CompiledRule L)) (req : AccessRequest) :
    shouldRejectLoop L rules req =
      rules.find? (fun rule => Spec.roleStage L rule req && reasonRejects L rule req) := by
  induction rules with
  | nil => rfl
  | cons rule rest ih =>
    rw [shouldRejectLoop_cons, List.find?_cons, ih]
    cases Spec.roleStage L rule req && reasonRejects L rule req <;> simp

theorem triggers_iff (L : RegexpPkg) (rule : CompiledRule L) (req : AccessRequest) :
    Triggers L rule req ↔ (Spec.roleStage L rule req && reasonRejects L rule req) = true := by
  rw [Bool.and_eq_true, roleStage_iff, reasonRejects_iff]
  rfl

theorem shouldReject_eq_some_iff (L : RegexpPkg) (rules : List (CompiledRule L)) (req : AccessRequest)
    (r : CompiledRule L) :
    shouldRejectLoop L rules req = some r ↔
      ∃ pre post, rules = pre ++ r :: post ∧ Triggers L r req ∧ ∀ x ∈ pre, ¬ Triggers L x req := by
  rw [shouldRejectLoop_eq_find, List.find?_eq_some]
  constructor
  · rintro ⟨hr, pre, post, hsplit, hpre⟩
    refine ⟨pre, post, hsplit, (triggers_iff L r req).2 hr, ?_⟩
    intro x hx hx2
    have h1 := hpre x hx
    rw [(triggers_iff L x req).1 hx2] at h1
    simp at h1
  · rintro ⟨pre, post, hsplit, hr, hpre⟩
    refine ⟨(triggers_iff L r req).1 hr, pre, post, hsplit, ?_⟩
    intro x hx
    have h1 := hpre x hx
    rw [triggers_iff] at h1
    rw [Bool.eq_false_iff.2 h1]
    rfl

theorem shouldReject_eq_none_iff (L : RegexpPkg) (rules : List (CompiledRule L)) (req : AccessRequest) :
    shouldRejectLoop L rules req = none ↔ ∀ x ∈ rules, ¬ Triggers L x req := by
  rw [shouldRejectLoop_eq_find, List.find?_eq_none]
  constructor
  · intro h x hx
    rw [triggers_iff]
    exact h x hx
  · intro h x hx
    have h1 := h x hx
    rw [triggers_iff] at h1
    exact h1

theorem reasonStage_of_isSome (L : RegexpPkg) (rule : CompiledRule L) (req : AccessRequest)
    (h : rule.ReasonRegex.isSome = true) :
    Spec.reasonStage L rule req = reasonRejects L rule req := by
  unfold Spec.reasonStage reasonRejects
  cases hr : rule.ReasonRegex with
  | none => rw [hr] at h; simp at h
  | some m => rfl

theorem find_congr_on {α : Type} (p q : α → Bool) (l : List α) (h : ∀ x ∈ l, p x = q x) :
    l.find? p = l.find? q := by
  induction l with
  | nil => rfl
  | cons a rest ih =>
    rw [List.find?_cons, List.find?_cons, h a (List.mem_cons_self a rest),
      ih (fun x hx => h x (List.mem_cons_of_mem a hx))]

/-- C1 (counterexample).  Rules `[A, B]` compiled from the configuration of the
specification, request with roles `["db-admin"]` and reason `"not ok"`: rule A
is first in the list, has no reason matcher and its role stage passes, the
specification's `Decide` returns A, yet `shouldReject` does not return A. -/
theorem shouldReject_reasonless_rule_not_returned :
    New goRegexp (.ok 0) (exampleConfig [defA, defB]) 0 = .ok (clientWith [defA, defB]) ∧
    ∃ a b, (clientWith [defA, defB]).compiledRules = [a, b] ∧ a.Name = "A" ∧
      a.ReasonRegex = none ∧ Spec.roleStage goRegexp a reqDbAdmin = true ∧
      Spec.Decide goRegexp [a, b] reqDbAdmin = some a ∧
      shouldReject (clientWith [defA, defB]) reqDbAdmin ≠ some a := by
  refine ⟨rfl, _, _, rfl, rfl, rfl, rfl, rfl, ?_⟩
  intro h
  have h2 := congrArg (Option.map CompiledRule.Name) h
  revert h2
  decide

/-- C1 (amended).  A rule whose reason matcher is unset never triggers a
denial, whether or not its role stage passes: `shouldReject` skips it (the
decision on `rule :: rest` is the decision on `rest`) and never returns a rule
without a reason matcher.  For the rules `[A, B]` and the request with roles
`["db-admin"]` and reason `"not ok"` the decision is rule B. -/
theorem shouldReject_skips_rule_without_reason :
    (∀ (L : RegexpPkg) (rule : CompiledRule L) (rest : List (CompiledRule L)) (req : AccessRequest),
        rule.ReasonRegex = none →
        shouldRejectLoop L (rule :: rest) req = shouldRejectLoop L rest req) ∧
    (∀ (L : RegexpPkg) (c : Client L) (req : AccessRequest) (r : CompiledRule L),
        shouldReject c req = some r → r.ReasonRegex ≠ none) ∧
    (∃ a b, (clientWith [defA, defB]).compiledRules = [a, b] ∧ a.Name = "A" ∧ b.Name = "B" ∧
        shouldReject (clientWith [defA, defB]) reqDbAdmin = some b) := by
  refine ⟨?_, ?_, _, _, rfl, rfl, rfl, rfl⟩
  · intro L rule rest req h
    rw [shouldRejectLoop_cons]
    simp [reasonRejects, h]
  · intro L c req r h hnone
    have h2 := (shouldReject_eq_some_iff L c.compiledRules req r).1 h
    obtain ⟨_, _, _, ⟨_, m, hm, _⟩, _⟩ := h2
    rw [hnone] at hm
    cases hm

/-- C2.  When every compiled rule has a reason matcher, `shouldReject` agrees
with the specification's `Decide`; it returns `r` exactly when `r` is the
first rule in list order whose role stage passes and whose reason matcher does
not match the request's reason (no rule before it satisfies that), and it
returns none exactly when no rule of the list satisfies that. -/
theorem shouldReject_first_triggering_rule (L : RegexpPkg) (c : Client L) (req : AccessRequest)
    (hall : c.compiledRules.all (fun r => r.ReasonRegex.isSome) = true) :
    shouldReject c req = Spec.Decide L c.compiledRules req ∧
    (∀ r, shouldReject c req = some r ↔
      ∃ pre post, c.compiledRules = pre ++ r :: post ∧ Triggers L r req ∧
        ∀ x ∈ pre, ¬ Triggers L x req) ∧
    (shouldReject c req = none ↔ ∀ x ∈ c.compiledRules, ¬ Triggers L x req) := by
  refine ⟨?_, ?_, ?_⟩
  · unfold shouldReject Spec.Decide
    rw [shouldRejectLoop_eq_find]
    apply find_congr_on
    intro x hx
    rw [reasonStage_of_isSome L x req (List.all_eq_true.1 hall x hx)]
  · intro r
    exact shouldReject_eq_some_iff L c.compiledRules req r
  · exact shouldReject_eq_none_iff L c.compiledRules req

/-- Witness of C2: rules R and J, both with a reason pattern, and the request
without a justification. -/
theorem shouldReject_first_triggering_rule_witness :
    (clientWith [defR, defJ]).compiledRules.all (fun r => r.ReasonRegex.isSome) = true ∧
    shouldReject (clientWith [defR, defJ]) reqPlease =
      Spec.Decide goRegexp (clientWith [defR, defJ]).compiledRules reqPlease ∧
    ((shouldReject (clientWith [defR, defJ]) reqPlease).map fun r => r.Name) = some "J" :=
  ⟨rfl, (shouldReject_first_triggering_rule goRegexp (clientWith [defR, defJ]) reqPlease rfl).1, rfl⟩

/-- C3.  For a rule list holding the single rule `r` with reason matcher `m`:
`shouldReject` returns `r` if and only if (`r` has no roles matcher or some
requested role matches it) and the reason does not match `m`; otherwise it
returns none; so a request without roles is never denied by a rule that has a
roles matcher.  With the rule compiled from reason pattern
`^justification:.+` and no roles pattern, the reason `"please"` is denied by
that rule and `"justification: urgent fix"` is not denied. -/
theorem shouldReject_single_rule :
    (∀ (L : RegexpPkg) (c : Client L) (r : CompiledRule L) (m : L.Regexp) (q : AccessRequest),
        c.compiledRules = [r] → r.ReasonRegex = some m →
        (shouldReject c q = some r ↔
          (r.RolesRegex = none ∨
            ∃ rm role, r.RolesRegex = some rm ∧ role ∈ q.Roles ∧ L.MatchString rm role = true) ∧
          L.MatchString m q.RequestReason = false) ∧
        (shouldReject c q ≠ some r → shouldReject c q = none) ∧
        (q.Roles = [] → r.RolesRegex ≠ none → shouldReject c q = none)) ∧
    (∃ j re, (clientWith [defJ]).compiledRules = [j] ∧ j.RolesRegex = none ∧
        compileRe "^justification:.+" = .ok re ∧ j.ReasonRegex = some re ∧
        shouldReject (clientWith [defJ]) reqPlease = some j ∧
        shouldReject (clientWith [defJ]) reqJustified = none) := by
  refine ⟨?_, _, _, rfl, rfl, rfl, rfl, rfl, rfl⟩
  intro L c r m q hc hm
  have key : shouldReject c q = if (Spec.roleStage L r q && reasonRejects L r q) = true then some r
      else none := by
    unfold shouldReject
    rw [hc, shouldRejectLoop_cons]
    rfl
  have hrej : reasonRejects L r q = !L.MatchString m q.RequestReason := by
    unfold reasonRejects
    rw [hm]
  refine ⟨?_, ?_, ?_⟩
  · rw [key, ← roleStage_iff]
    by_cases h : (Spec.roleStage L r q && reasonRejects L r q) = true
    · rw [if_pos h]
      rw [Bool.and_eq_true, hrej] at h
      simpa using h
    · rw [if_neg h]
      rw [Bool.and_eq_true, hrej] at h
      simpa using h
  · rw [key]
    split <;> simp
  · intro hroles hrm
    rw [key]
    have : Spec.roleStage L r q = false := by
      unfold Spec.roleStage
      cases hr : r.RolesRegex with
      | none => exact absurd hr hrm
      | some rm => simp [hroles]
    simp [this]

/-- Witness of C3: the general part applied to the justification rule and the
request whose reason is `"please"`. -/
theorem shouldReject_single_rule_witness :
    ∃ j re, (clientWith [defJ]).compiledRules = [j] ∧ j.ReasonRegex = some re ∧
      (shouldReject (clientWith [defJ]) reqPlease = some j ↔
        (j.RolesRegex = none ∨
          ∃ rm role, j.RolesRegex = some rm ∧ role ∈ reqPlease.Roles ∧
            goRegexp.MatchString rm role = true) ∧
        goRegexp.MatchString re reqPlease.RequestReason = false) :=
  ⟨_, _, rfl, rfl, (shouldReject_single_rule.1 goRegexp (clientWith [defJ]) _ _ reqPlease rfl rfl).1⟩

/-! ## The watcher: which effects it has -/

theorem transitionsOf_append (a b : List Effect) :
    transitionsOf (a ++ b) = transitionsOf a ++ transitionsOf b := by
  induction a with
  | nil => rfl
  | cons e rest ih => cases e <;> simp [transitionsOf, ih]

theorem evaluatedOf_append (a b : List Effect) :
    evaluatedOf (a ++ b) = evaluatedOf a ++ evaluatedOf b := by
  induction a with
  | nil => rfl
  | cons e rest ih => cases e <;> simp [evaluatedOf, ih]

theorem closedOf_append (a b : List Effect) :
    closedOf (a ++ b) = closedOf a ++ closedOf b := by
  induction a with
  | nil => rfl
  | cons e rest ih => cases e <;> simp [closedOf, ih]

theorem processExistingOne_client {L : RegexpPkg} (c : Client L) (req : AccessRequest) (env : CallEnv) :
    (processExistingOne c req env).1 = { c with lastRequestTime := env.now } := by
  unfold processExistingOne
  simp only
  split
  · split <;> rfl
  · rfl

theorem processExistingOne_evaluated {L : RegexpPkg} (c : Client L) (req : AccessRequest) (env : CallEnv) :
    evaluatedOf (processExistingOne c req env).2 = [req] := by
  unfold processExistingOne
  simp only
  split
  · split <;> simp [rejectRequest, evaluatedOf]
  · simp [evaluatedOf]

theorem processExistingOne_transitions {L : RegexpPkg} (c : Client L) (req : AccessRequest) (env : CallEnv) :
    transitionsOf (processExistingOne c req env).2 =
      match shouldReject c req with
      | some rule => transitionsOf (rejectRequest c req rule env.setState).1
      | none => [] := by
  unfold processExistingOne
  have hc : shouldReject { c with lastRequestTime := env.now } req = shouldReject c req := rfl
  simp only [hc]
  cases shouldReject c req with
  | none => simp [transitionsOf]
  | some rule =>
    simp only
    split <;> simp [rejectRequest, transitionsOf]

theorem processExistingLoop_frame {L : RegexpPkg} (c : Client L) (requests : List AccessRequest)
    (env : Nat → CallEnv) :
    (processExistingLoop c requests env).1.compiledRules = c.compiledRules ∧
    (processExistingLoop c requests env).1.config = c.config ∧
    (processExistingLoop c requests env).1.Client = c.Client ∧
    (processExistingLoop c requests env).1.healthStatus = c.healthStatus := by
  induction requests generalizing c env with
  | nil => exact ⟨rfl, rfl, rfl, rfl⟩
  | cons req rest ih =>
    simp only [processExistingLoop]
    have h := ih (processExistingOne c req (env 0)).1 (fun i => env (i + 1))
    rw [processExistingOne_client] at h
    rw [processExistingOne_client]
    exact h

theorem processExistingLoop_evaluated {L : RegexpPkg} (c : Client L) (requests : List AccessRequest)
    (env : Nat → CallEnv) :
    evaluatedOf (processExistingLoop c requests env).2 = requests := by
  induction requests generalizing c env with
  | nil => rfl
  | cons req rest ih =>
    simp only [processExistingLoop, evaluatedOf_append, processExistingOne_evaluated, ih]
    rfl

theorem processExistingLoop_transitions {L : RegexpPkg} (c : Client L) (requests : List AccessRequest)
    (env : Nat → CallEnv) :
    transitionsOf (processExistingLoop c requests env).2 =
      requests.filterMap (fun q => (shouldReject c q).map (fun rule =>
        { RequestID := q.Name, State := RequestState.DENIED,
          Reason := if rule.Message = "" then c.config.Rejection.DefaultMessage else rule.Message })) := by
  induction requests generalizing c env with
  | nil => rfl
  | cons req rest ih =>
    simp only [processExistingLoop, transitionsOf_append, processExistingOne_transitions]
    rw [ih, processExistingOne_client]
    have hc : ∀ q, shouldReject { c with lastRequestTime := (env 0).now } q = shouldReject c q :=
      fun _ => rfl
    simp only [hc]
    cases h : shouldReject c req with
    | none => simp [List.filterMap_cons, h]
    | some rule => simp [List.filterMap_cons, h, rejectRequest, transitionsOf]

theorem handleEvent_frame {L : RegexpPkg} (c : Client L) (event : Event) (env : CallEnv) :
    (handleEvent c event env).1 = c ∨
      (handleEvent c event env).1 = { c with lastRequestTime := env.now } := by
  unfold handleEvent
  simp only
  split
  · exact Or.inl rfl
  · split
    · exact Or.inl rfl
    · split
      · exact Or.inl rfl
      · split
        · split <;> exact Or.inr rfl
        · exact Or.inr rfl

theorem handleEvent_ignored {L : RegexpPkg} (c : Client L) (event : Event) (env : CallEnv)
    (h : event.EventType ≠ OpType.OpPut ∨ (∀ q, event.Resource ≠ Resource.accessRequest q) ∨
      ∃ q, event.Resource = Resource.accessRequest q ∧ q.State ≠ RequestState.PENDING) :
    (handleEvent c event env).1 = c ∧ transitionsOf (handleEvent c event env).2 = [] ∧
      evaluatedOf (handleEvent c event env).2 = [] := by
  obtain ⟨ty, res⟩ := event
  unfold handleEvent
  simp only
  by_cases hty : ty = OpType.OpPut
  · subst hty
    simp only [ne_eq, not_true_eq_false, if_false]
    cases res with
    | other kind => simp [transitionsOf, evaluatedOf]
    | accessRequest req =>
      rcases h with h | h | ⟨q, hq, hst⟩
      · exact absurd rfl h
      · exact absurd rfl (h req)
      · cases hq
        simp [hst, transitionsOf, evaluatedOf]
  · simp [hty, transitionsOf, evaluatedOf]

theorem handleEvent_actionable {L : RegexpPkg} (c : Client L) (req : AccessRequest) (env : CallEnv)
    (hst : req.State = RequestState.PENDING) :
    (handleEvent c ⟨OpType.OpPut, Resource.accessRequest req⟩ env).1 =
        { c with lastRequestTime := env.now } ∧
    evaluatedOf (handleEvent c ⟨OpType.OpPut, Resource.accessRequest req⟩ env).2 = [req] ∧
    transitionsOf (handleEvent c ⟨OpType.OpPut, Resource.accessRequest req⟩ env).2 =
      match shouldReject c req with
      | some rule => transitionsOf (rejectRequest c req rule env.setState).1
      | none => [] := by
  unfold handleEvent
  have hc : shouldReject { c with lastRequestTime := env.now } req = shouldReject c req := rfl
  simp only [ne_eq, not_true_eq_false, if_false, hst, hc]
  cases shouldReject c req with
  | none => simp [transitionsOf, evaluatedOf]
  | some rule =>
    simp only
    split <;> simp [rejectRequest, transitionsOf, evaluatedOf]

theorem handleEvent_rules {L : RegexpPkg} (c : Client L) (event : Event) (env : CallEnv) :
    (handleEvent c event env).1.compiledRules = c.compiledRules ∧
    (handleEvent c event env).1.config = c.config ∧
    (handleEvent c event env).1.Client = c.Client ∧
    (handleEvent c event env).1.healthStatus = c.healthStatus := by
  rcases handleEvent_frame c event env with h | h <;> rw [h] <;> exact ⟨rfl, rfl, rfl, rfl⟩

theorem watchLoop_frame {L : RegexpPkg} (c : Client L) (cases : List SelectCase) :
    (watchLoop c cases).1.compiledRules = c.compiledRules ∧
    (watchLoop c cases).1.config = c.config ∧
    (watchLoop c cases).1.Client = c.Client ∧
    (watchLoop c cases).1.healthStatus = c.healthStatus := by
  induction cases generalizing c with
  | nil => exact ⟨rfl, rfl, rfl, rfl⟩
  | cons sc rest ih =>
    cases sc with
    | done err => exact ⟨rfl, rfl, rfl, rfl⟩
    | event event env =>
      simp only [watchLoop]
      obtain ⟨h1, h2, h3, h4⟩ := ih (handleEvent c event env).1
      obtain ⟨g1, g2, g3, g4⟩ := handleEvent_rules c event env
      exact ⟨h1.trans g1, h2.trans g2, h3.trans g3, h4.trans g4⟩

theorem shouldReject_congr {L : RegexpPkg} (c c2 : Client L) (q : AccessRequest)
    (h : c2.compiledRules = c.compiledRules) : shouldReject c2 q = shouldReject c q := by
  unfold shouldReject
  rw [h]

theorem rejectRequest_transitions {L : RegexpPkg} (c : Client L) (q : AccessRequest)
    (r : CompiledRule L) (setState : Option String) :
    transitionsOf (rejectRequest c q r setState).1 =
      [{ RequestID := q.Name, State := RequestState.DENIED,
         Reason := if r.Message = "" then c.config.Rejection.DefaultMessage else r.Message }] := rfl

theorem handleEvent_transition_mem {L : RegexpPkg} (c : Client L) (event : Event) (env : CallEnv)
    (upd : AccessRequestUpdate) (h : upd ∈ transitionsOf (handleEvent c event env).2) :
    ∃ q r, event = ⟨OpType.OpPut, Resource.accessRequest q⟩ ∧ q.State = RequestState.PENDING ∧
      shouldReject c q = some r ∧
      upd = { RequestID := q.Name, State := RequestState.DENIED,
              Reason := if r.Message = "" then c.config.Rejection.DefaultMessage else r.Message } := by
  obtain ⟨ty, res⟩ := event
  by_cases hty : ty = OpType.OpPut
  · subst hty
    cases res with
    | other kind =>
      rw [(handleEvent_ignored c _ env (Or.inr (Or.inl (fun q hq => by cases hq)))).2.1] at h
      cases h
    | accessRequest req =>
      by_cases hst : req.State = RequestState.PENDING
      · rw [(handleEvent_actionable c req env hst).2.2] at h
        cases hr : shouldReject c req with
        | none => rw [hr] at h; cases h
        | some rule =>
          rw [hr] at h
          simp only [rejectRequest_transitions, List.mem_singleton] at h
          exact ⟨req, rule, rfl, hst, hr, h⟩
      · rw [(handleEvent_ignored c _ env (Or.inr (Or.inr ⟨req, rfl, hst⟩))).2.1] at h
        cases h
  · rw [(handleEvent_ignored c _ env (Or.inl hty)).2.1] at h
    cases h

theorem watchLoop_transition_mem {L : RegexpPkg} (c : Client L) (cases : List SelectCase)
    (upd : AccessRequestUpdate) (h : upd ∈ transitionsOf (watchLoop c cases).2.1) :
    ∃ q r, (q.State = RequestState.PENDING ∧
        ∃ e, SelectCase.event ⟨OpType.OpPut, Resource.accessRequest q⟩ e ∈ cases) ∧
      shouldReject c q = some r ∧
      upd = { RequestID := q.Name, State := RequestState.DENIED,
              Reason := if r.Message = "" then c.config.Rejection.DefaultMessage else r.Message } := by
  induction cases generalizing c with
  | nil => cases h
  | cons sc rest ih =>
    cases sc with
    | done err => cases h
    | event event env =>
      simp only [watchLoop, transitionsOf_append, List.mem_append] at h
      rcases h with h | h
      · obtain ⟨q, r, hev, hst, hr, hupd⟩ := handleEvent_transition_mem c event env upd h
        subst hev
        exact ⟨q, r, ⟨hst, env, List.mem_cons_self _ _⟩, hr, hupd⟩
      · obtain ⟨q, r, ⟨hst, e, he⟩, hr, hupd⟩ := ih (handleEvent c event env).1 h
        obtain ⟨g1, g2, _, _⟩ := handleEvent_rules c event env
        rw [shouldReject_congr c _ q g1] at hr
        rw [g2] at hupd
        exact ⟨q, r, ⟨hst, e, List.mem_cons_of_mem _ he⟩, hr, hupd⟩

theorem processExistingRequests_transitions {L : RegexpPkg} (c : Client L)
    (requests : List AccessRequest) (env : Nat → CallEnv) :
    transitionsOf (processExistingRequests c (.ok requests) env).2.1 =
      requests.filterMap (fun q => (shouldReject c q).map (fun rule =>
        { RequestID := q.Name, State := RequestState.DENIED,
          Reason := if rule.Message = "" then c.config.Rejection.DefaultMessage else rule.Message })) := by
  simp only [processExistingRequests, List.cons_append, List.nil_append, transitionsOf]
  exact processExistingLoop_transitions c requests env

theorem processExistingRequests_evaluated {L : RegexpPkg} (c : Client L)
    (requests : List AccessRequest) (env : Nat → CallEnv) :
    evaluatedOf (processExistingRequests c (.ok requests) env).2.1 = requests := by
  simp only [processExistingRequests, List.cons_append, List.nil_append, evaluatedOf]
  exact processExistingLoop_evaluated c requests env

theorem processExistingRequests_frame {L : RegexpPkg} (c : Client L)
    (listing : Except String (List AccessRequest)) (env : Nat → CallEnv) :
    (processExistingRequests c listing env).1.compiledRules = c.compiledRules ∧
    (processExistingRequests c listing env).1.config = c.config ∧
    (processExistingRequests c listing env).1.Client = c.Client ∧
    (processExistingRequests c listing env).1.healthStatus = c.healthStatus := by
  cases listing with
  | error err => exact ⟨rfl, rfl, rfl, rfl⟩
  | ok requests => exact processExistingLoop_frame c requests env

theorem WatchAccessRequests_trace {L : RegexpPkg} (c : Client L)
    (listing : Except String (List AccessRequest)) (env : Nat → CallEnv) (cases : List SelectCase) :
    transitionsOf (WatchAccessRequests c none listing env cases).2.1 =
        transitionsOf (processExistingRequests c listing env).2.1 ++
          transitionsOf (watchLoop (processExistingRequests c listing env).1 cases).2.1 ∧
    evaluatedOf (WatchAccessRequests c none listing env cases).2.1 =
        evaluatedOf (processExistingRequests c listing env).2.1 ++
          evaluatedOf (watchLoop (processExistingRequests c listing env).1 cases).2.1 := by
  have htrace : (WatchAccessRequests c none listing env cases).2.1 =
      [Effect.newWatcher c.Client, Effect.log .startedWatching, Effect.log .checkingExisting]
        ++ (processExistingRequests c listing env).2.1
        ++ (match (processExistingRequests c listing env).2.2 with
            | some err => [Effect.log (.errorProcessingExisting err)]
            | none => [])
        ++ (watchLoop (processExistingRequests c listing env).1 cases).2.1
        ++ (match (watchLoop (processExistingRequests c listing env).1 cases).2.2 with
            | .returned _ => [Effect.closeWatcher]
            | .waiting => []) := rfl
  rw [htrace]
  simp only [transitionsOf_append, evaluatedOf_append]
  have h1 : transitionsOf (match (processExistingRequests c listing env).2.2 with
      | some err => [Effect.log (.errorProcessingExisting err)]
      | none => []) = [] := by
    split <;> rfl
  have h2 : transitionsOf (match (watchLoop (processExistingRequests c listing env).1 cases).2.2 with
      | .returned _ => [Effect.closeWatcher]
      | .waiting => []) = [] := by
    split <;> rfl
  have h3 : evaluatedOf (match (processExistingRequests c listing env).2.2 with
      | some err => [Effect.log (.errorProcessingExisting err)]
      | none => []) = [] := by
    split <;> rfl
  have h4 : evaluatedOf (match (watchLoop (processExistingRequests c listing env).1 cases).2.2 with
      | .returned _ => [Effect.closeWatcher]
      | .waiting => []) = [] := by
    split <;> rfl
  rw [h1, h2, h3, h4]
  simp [transitionsOf, evaluatedOf]

/-- C4.  Every state transition in the trace of `WatchAccessRequests`, from the
replay of the existing requests or from the loop, is the one `rejectRequest`
sends for a request `q` (a listed request, or the pending request of a `Put`
event) and the rule `r` that `shouldReject` returns for `q`: its request ID is
the name of `q`, its state is `DENIED`, and its reason is the message of `r`
when that is not empty and the configured default message otherwise. -/
theorem watcher_transitions_are_denials {L : RegexpPkg} (c : Client L) (newWatcher : Option String)
    (listing : Except String (List AccessRequest)) (env : Nat → CallEnv) (cases : List SelectCase)
    (upd : AccessRequestUpdate)
    (h : upd ∈ transitionsOf (WatchAccessRequests c newWatcher listing env cases).2.1) :
    ∃ q r,
      ((∃ requests, listing = .ok requests ∧ q ∈ requests) ∨
        (q.State = RequestState.PENDING ∧
          ∃ e, SelectCase.event ⟨OpType.OpPut, Resource.accessRequest q⟩ e ∈ cases)) ∧
      shouldReject c q = some r ∧
      (∀ setState, transitionsOf (rejectRequest c q r setState).1 = [upd]) ∧
      upd.RequestID = q.Name ∧ upd.State = RequestState.DENIED ∧
      (r.Message ≠ "" → upd.Reason = r.Message) ∧
      (r.Message = "" → upd.Reason = c.config.Rejection.DefaultMessage) := by
  have fin : ∀ (q : AccessRequest) (r : CompiledRule L),
      upd = { RequestID := q.Name, State := RequestState.DENIED,
              Reason := if r.Message = "" then c.config.Rejection.DefaultMessage else r.Message } →
      (∀ setState, transitionsOf (rejectRequest c q r setState).1 = [upd]) ∧
      upd.RequestID = q.Name ∧ upd.State = RequestState.DENIED ∧
      (r.Message ≠ "" → upd.Reason = r.Message) ∧
      (r.Message = "" → upd.Reason = c.config.Rejection.DefaultMessage) := by
    intro q r hupd
    subst hupd
    refine ⟨fun _ => rfl, rfl, rfl, ?_, ?_⟩
    · intro hne
      simp [hne]
    · intro he
      simp [he]
  cases newWatcher with
  | some err => cases h
  | none =>
    rw [(WatchAccessRequests_trace c listing env cases).1, List.mem_append] at h
    rcases h with h | h
    · cases listing with
      | error err => cases h
      | ok requests =>
        rw [processExistingRequests_transitions, List.mem_filterMap] at h
        obtain ⟨q, hq, hmap⟩ := h
        cases hr : shouldReject c q with
        | none => rw [hr] at hmap; cases hmap
        | some r =>
          rw [hr] at hmap
          simp only [Option.map_some', Option.some.injEq] at hmap
          exact ⟨q, r, Or.inl ⟨requests, rfl, hq⟩, hr, fin q r hmap.symm⟩
    · obtain ⟨q, r, hq, hr, hupd⟩ := watchLoop_transition_mem _ cases upd h
      obtain ⟨g1, g2, _, _⟩ := processExistingRequests_frame c listing env
      rw [shouldReject_congr c _ q g1] at hr
      rw [g2] at hupd
      exact ⟨q, r, Or.inr hq, hr, fin q r hupd⟩

/-- Witness of C4: the justification rule (empty message) and rule B, one
listed request and one live event; the listed request is denied with the
default message. -/
theorem watcher_transitions_are_denials_witness :
    updPlease ∈ transitionsOf
      (WatchAccessRequests (clientWith [defJ, defB]) none (.ok [reqPlease]) envOk casesExample).2.1 ∧
    ∃ q r,
      ((∃ requests, (Except.ok [reqPlease] : Except String (List AccessRequest)) = .ok requests ∧
          q ∈ requests) ∨
        (q.State = RequestState.PENDING ∧
          ∃ e, SelectCase.event ⟨OpType.OpPut, Resource.accessRequest q⟩ e ∈ casesExample)) ∧
      shouldReject (clientWith [defJ, defB]) q = some r ∧
      (∀ setState, transitionsOf (rejectRequest (clientWith [defJ, defB]) q r setState).1 = [updPlease]) ∧
      updPlease.RequestID = q.Name ∧ updPlease.State = RequestState.DENIED ∧
      (r.Message ≠ "" → updPlease.Reason = r.Message) ∧
      (r.Message = "" → updPlease.Reason = (clientWith [defJ, defB]).config.Rejection.DefaultMessage) :=
  ⟨by decide,
    watcher_transitions_are_denials (clientWith [defJ, defB]) none (.ok [reqPlease]) envOk casesExample
      updPlease (by decide)⟩

/-- C5.  In the loop of `WatchAccessRequests`, handling an event that is not
of type `Put`, or whose resource is not an access request, or whose access
request is not `PENDING` (for instance `DENIED`) leaves the client unchanged
(in particular the time of the last request), issues no state transition and
does not call `shouldReject`; handling a `Put` event with a `PENDING` access
request sets the time of the last request and calls `shouldReject` on it
once. -/
theorem handleEvent_only_pending_put :
    (∀ (L : RegexpPkg) (c : Client L) (event : Event) (env : CallEnv),
        (event.EventType ≠ OpType.OpPut ∨ (∀ q, event.Resource ≠ Resource.accessRequest q) ∨
          ∃ q, event.Resource = Resource.accessRequest q ∧ q.State ≠ RequestState.PENDING) →
        (handleEvent c event env).1 = c ∧
        (handleEvent c event env).1.lastRequestTime = c.lastRequestTime ∧
        transitionsOf (handleEvent c event env).2 = [] ∧
        evaluatedOf (handleEvent c event env).2 = []) ∧
    (∀ (L : RegexpPkg) (c : Client L) (q : AccessRequest) (env : CallEnv),
        q.State = RequestState.PENDING →
        (handleEvent c ⟨OpType.OpPut, Resource.accessRequest q⟩ env).1.lastRequestTime = env.now ∧
        evaluatedOf (handleEvent c ⟨OpType.OpPut, Resource.accessRequest q⟩ env).2 = [q]) ∧
    ((handleEvent (clientWith [defJ])
        ⟨OpType.OpPut, Resource.accessRequest { reqPlease with State := RequestState.DENIED }⟩
        ⟨7, none⟩).1.lastRequestTime = 0 ∧
      (handleEvent (clientWith [defJ]) ⟨OpType.OpPut, Resource.accessRequest reqPlease⟩
        ⟨7, none⟩).1.lastRequestTime = 7 ∧
      transitionsOf (handleEvent (clientWith [defJ]) ⟨OpType.OpDelete, Resource.accessRequest reqPlease⟩
        ⟨7, none⟩).2 = [] ∧
      transitionsOf (handleEvent (clientWith [defJ]) ⟨OpType.OpPut, Resource.accessRequest reqPlease⟩
        ⟨7, none⟩).2 =
        [{ RequestID := "req-2", State := RequestState.DENIED,
           Reason := "Access request rejected due to policy violation" }]) := by
  refine ⟨?_, ?_, rfl, rfl, rfl, rfl⟩
  · intro L c event env h
    obtain ⟨h1, h2, h3⟩ := handleEvent_ignored c event env h
    exact ⟨h1, by rw [h1], h2, h3⟩
  · intro L c q env hst
    obtain ⟨h1, h2, _⟩ := handleEvent_actionable c q env hst
    exact ⟨by rw [h1], h2⟩

/-- C6.  For every list of pending requests the listing returns,
`processExistingRequests` returns no error, calls `shouldReject` on each listed
request exactly once and in list order, and sends exactly one `DENIED`
transition for each request for which `shouldReject` returns a rule and none
for the others, whatever errors the transition calls return; in
`WatchAccessRequests` all of these come before the evaluations and
transitions of the loop. -/
theorem processExistingRequests_each_once :
    (∀ (L : RegexpPkg) (c : Client L) (requests : List AccessRequest) (env : Nat → CallEnv),
      (processExistingRequests c (.ok requests) env).2.2 = none ∧
      evaluatedOf (processExistingRequests c (.ok requests) env).2.1 = requests ∧
      transitionsOf (processExistingRequests c (.ok requests) env).2.1 =
        requests.filterMap (fun q => (shouldReject c q).map (fun rule =>
          { RequestID := q.Name, State := RequestState.DENIED,
            Reason := if rule.Message = "" then c.config.Rejection.DefaultMessage
                      else rule.Message })) ∧
      (∀ env2 : Nat → CallEnv,
        transitionsOf (processExistingRequests c (.ok requests) env2).2.1 =
          transitionsOf (processExistingRequests c (.ok requests) env).2.1 ∧
        evaluatedOf (processExistingRequests c (.ok requests) env2).2.1 =
          evaluatedOf (processExistingRequests c (.ok requests) env).2.1) ∧
      (∀ cases : List SelectCase,
        evaluatedOf (WatchAccessRequests c none (.ok requests) env cases).2.1 =
          requests ++
            evaluatedOf (watchLoop (processExistingRequests c (.ok requests) env).1 cases).2.1 ∧
        transitionsOf (WatchAccessRequests c none (.ok requests) env cases).2.1 =
          transitionsOf (processExistingRequests c (.ok requests) env).2.1 ++
            transitionsOf (watchLoop (processExistingRequests c (.ok requests) env).1 cases).2.1)) ∧
    transitionsOf (processExistingRequests (clientWith [defJ, defB])
        (.ok [reqPlease, reqJustified, reqDbAdmin]) envFailing).2.1 =
      [{ RequestID := "req-2", State := RequestState.DENIED,
         Reason := "Access request rejected due to policy violation" },
       { RequestID := "req-3", State := RequestState.DENIED, Reason := "the reason must be ok" },
       { RequestID := "req-1", State := RequestState.DENIED,
         Reason := "Access request rejected due to policy violation" }] := by
  refine ⟨?_, by decide⟩
  intro L c requests env
  refine ⟨rfl, processExistingRequests_evaluated c requests env,
    processExistingRequests_transitions c requests env, ?_, ?_⟩
  · intro env2
    rw [processExistingRequests_transitions, processExistingRequests_transitions,
      processExistingRequests_evaluated, processExistingRequests_evaluated]
    exact ⟨rfl, rfl⟩
  · intro cases
    obtain ⟨h1, h2⟩ := WatchAccessRequests_trace c (.ok requests) env cases
    rw [h2, processExistingRequests_evaluated]
    exact ⟨rfl, h1⟩

/-! ## Rule compilation -/

theorem compileRule_error_iff (L : RegexpPkg) (rule : RejectionRule) :
    (∃ err, compileRule L rule = .error err) ↔
      (BadPattern L rule.ReasonRegex ∨ BadPattern L rule.RolesRegex) := by
  unfold compileRule BadPattern
  by_cases h1 : rule.ReasonRegex = "" <;> by_cases h2 : rule.RolesRegex = ""
  · simp [h1, h2]
  · cases hc : L.Compile rule.RolesRegex <;> simp [h1, h2, hc]
  · cases hc : L.Compile rule.ReasonRegex <;> simp [h1, h2, hc]
  · cases hc : L.Compile rule.ReasonRegex <;> cases hc2 : L.Compile rule.RolesRegex <;>
      simp [h1, h2, hc, hc2]

theorem compileRule_ok (L : RegexpPkg) (rule : RejectionRule) (cr : CompiledRule L)
    (h : compileRule L rule = .ok cr) : CompiledFrom L rule cr := by
  unfold compileRule at h
  unfold CompiledFrom
  by_cases h1 : rule.ReasonRegex = "" <;> by_cases h2 : rule.RolesRegex = ""
  · simp [h1, h2] at h
    subst h
    simp [h1, h2]
  · cases hc : L.Compile rule.RolesRegex <;> simp [h1, h2, hc] at h
    subst h
    simp [h1, h2, hc]
  · cases hc : L.Compile rule.ReasonRegex <;> simp [h1, h2, hc] at h
    subst h
    simp [h1, h2, hc]
  · cases hc : L.Compile rule.ReasonRegex <;> cases hc2 : L.Compile rule.RolesRegex <;>
      simp [h1, h2, hc, hc2] at h
    subst h
    simp [h1, h2, hc, hc2]

theorem compileRule_cases (L : RegexpPkg) (rule : RejectionRule) :
    (∃ err, compileRule L rule = .error err) ∨ ∃ cr, compileRule L rule = .ok cr := by
  cases h : compileRule L rule with
  | error err => exact Or.inl ⟨err, rfl⟩
  | ok cr => exact Or.inr ⟨cr, rfl⟩

theorem compileRulesLoop_error_iff (L : RegexpPkg) (rules : List RejectionRule)
    (acc : List (CompiledRule L)) :
    (compileRulesLoop L rules acc).2 ≠ none ↔
      ∃ rule ∈ rules, BadPattern L rule.ReasonRegex ∨ BadPattern L rule.RolesRegex := by
  induction rules generalizing acc with
  | nil => simp [compileRulesLoop]
  | cons rule rest ih =>
    simp only [compileRulesLoop, List.mem_cons, exists_eq_or_imp]
    rw [← compileRule_error_iff]
    cases h : compileRule L rule with
    | error err => simp
    | ok cr =>
      simp only [ih, reduceCtorEq, exists_false, false_or]

theorem compileRulesLoop_ok (L : RegexpPkg) (rules : List RejectionRule)
    (acc : List (CompiledRule L)) (h : (compileRulesLoop L rules acc).2 = none) :
    ∃ crs, (compileRulesLoop L rules acc).1 = acc ++ crs ∧ List.Forall₂ (CompiledFrom L) rules crs := by
  induction rules generalizing acc with
  | nil => exact ⟨[], by simp [compileRulesLoop], List.Forall₂.nil⟩
  | cons rule rest ih =>
    simp only [compileRulesLoop] at h ⊢
    cases hc : compileRule L rule with
    | error err => rw [hc] at h; simp at h
    | ok cr =>
      rw [hc] at h
      simp only at h ⊢
      obtain ⟨crs, h1, h2⟩ := ih (acc ++ [cr]) h
      refine ⟨cr :: crs, ?_, List.Forall₂.cons (compileRule_ok L rule cr hc) h2⟩
      rw [h1]
      simp

theorem compileRulesLoop_prefix (L : RegexpPkg) (rules : List RejectionRule)
    (acc : List (CompiledRule L)) :
    acc.length ≤ (compileRulesLoop L rules acc).1.length ∧
    ((compileRulesLoop L rules acc).2 ≠ none →
      (compileRulesLoop L rules acc).1.length < acc.length + rules.length) := by
  induction rules generalizing acc with
  | nil => simp [compileRulesLoop]
  | cons rule rest ih =>
    simp only [compileRulesLoop]
    cases hc : compileRule L rule with
    | error err => simp
    | ok cr =>
      simp only
      obtain ⟨h1, h2⟩ := ih (acc ++ [cr])
      have e : (acc ++ [cr]).length = acc.length + 1 := by simp
      have e2 : (rule :: rest).length = rest.length + 1 := rfl
      rw [e] at h1 h2
      rw [e2]
      exact ⟨by omega, fun h => by have := h2 h; omega⟩

theorem New_ok_eq (L : RegexpPkg) (conn : ConnId) (cfg : Config) (now : Time) :
    New L (.ok conn) cfg now =
      match (compileRulesLoop L cfg.Rejection.Rules []).2 with
      | some err => .error (traceWrap err "failed to compile rejection rules")
      | none =>
        .ok { Client := some conn, config := cfg,
              compiledRules := (compileRulesLoop L cfg.Rejection.Rules []).1,
              healthStatus := { TeleportConnected := true, IdentityValid := true, LastRefresh := now },
              lastRequestTime := 0 } := by
  simp only [New, compileRules]
  rcases compileRulesLoop L cfg.Rejection.Rules [] with ⟨a, _ | e⟩ <;> rfl

theorem New_ok_inv (L : RegexpPkg) (dial : Except String ConnId) (cfg : Config) (now : Time)
    (c : Client L) (h : New L dial cfg now = .ok c) :
    ∃ conn, dial = .ok conn ∧ c.Client = some conn ∧ c.config = cfg ∧
      (compileRulesLoop L cfg.Rejection.Rules []).2 = none ∧
      c.compiledRules = (compileRulesLoop L cfg.Rejection.Rules []).1 := by
  cases dial with
  | error err => simp [New] at h
  | ok conn =>
    rw [New_ok_eq] at h
    cases hc : (compileRulesLoop L cfg.Rejection.Rules []).2 with
    | some err => rw [hc] at h; simp at h
    | none =>
      rw [hc] at h
      simp only [Except.ok.injEq] at h
      subst h
      exact ⟨conn, rfl, rfl, rfl, rfl, rfl⟩

/-- C7.  `compileRules` returns an error if and only if some rule definition
has a non-empty reason pattern or a non-empty roles pattern that
`regexp.Compile` rejects.  When some rule has such a pattern, `New` returns an
error and no client, whatever the connection did; a client that `New` returns
holds the compiled form of every rule definition, in order.  The pattern `[`
is rejected; with a valid rule followed by a rule with that pattern
`compileRules` leaves one compiled rule in the client it was working on, and
`New` returns an error. -/
theorem compileRules_fails_iff_bad_pattern :
    (∀ (L : RegexpPkg) (c : Client L),
        (compileRules c).2 ≠ none ↔
          ∃ rule ∈ c.config.Rejection.Rules,
            BadPattern L rule.ReasonRegex ∨ BadPattern L rule.RolesRegex) ∧
    (∀ (L : RegexpPkg) (dial : Except String ConnId) (cfg : Config) (now : Time),
        (∃ rule ∈ cfg.Rejection.Rules, BadPattern L rule.ReasonRegex ∨ BadPattern L rule.RolesRegex) →
        ∃ err, New L dial cfg now = .error err) ∧
    (∀ (L : RegexpPkg) (dial : Except String ConnId) (cfg : Config) (now : Time) (c : Client L),
        New L dial cfg now = .ok c →
        c.config = cfg ∧ List.Forall₂ (CompiledFrom L) cfg.Rejection.Rules c.compiledRules) ∧
    (BadPattern goRegexp "[" ∧
      (compileRules (blankClient [defB, defBad])).2 ≠ none ∧
      (compileRules (blankClient [defB, defBad])).1.compiledRules.length = 1 ∧
      (∃ err, New goRegexp (.ok 0) (exampleConfig [defB, defBad]) 0 = .error err) ∧
      ∃ err, Sys.start goRegexp (exampleConfig [defB, defBad]) 0 = .error err) := by
  refine ⟨?_, ?_, ?_, ?_⟩
  · intro L c
    exact compileRulesLoop_error_iff L c.config.Rejection.Rules []
  · intro L dial cfg now hbad
    cases dial with
    | error err => exact ⟨_, rfl⟩
    | ok conn =>
      rw [New_ok_eq]
      have h := (compileRulesLoop_error_iff L cfg.Rejection.Rules []).2 hbad
      cases hc : (compileRulesLoop L cfg.Rejection.Rules []).2 with
      | none => exact absurd hc h
      | some err => exact ⟨_, rfl⟩
  · intro L dial cfg now c h
    obtain ⟨conn, _, _, hcfg, hnone, hrules⟩ := New_ok_inv L dial cfg now c h
    obtain ⟨crs, h1, h2⟩ := compileRulesLoop_ok L cfg.Rejection.Rules [] hnone
    rw [hrules, h1]
    exact ⟨hcfg, h2⟩
  · refine ⟨⟨by decide, _, rfl⟩, by decide, rfl, ⟨_, rfl⟩, _, rfl⟩

/-- C8.  When `compileRules` succeeds, the compiled list has the length of the
list of rule definitions, and compiled rule `i` has the name and the message
of definition `i`, has no reason matcher exactly when the reason pattern of
definition `i` is empty, has no roles matcher exactly when its roles pattern
is empty, and each matcher it has is the compilation of the corresponding
pattern. -/
theorem compileRules_compiles_each_rule (L : RegexpPkg) (c : Client L)
    (h : (compileRules c).2 = none) :
    (compileRules c).1.compiledRules.length = c.config.Rejection.Rules.length ∧
    ∀ (i : Nat) (h1 : i < c.config.Rejection.Rules.length)
      (h2 : i < (compileRules c).1.compiledRules.length),
      ((compileRules c).1.compiledRules.get ⟨i, h2⟩).Name =
          (c.config.Rejection.Rules.get ⟨i, h1⟩).Name ∧
      ((compileRules c).1.compiledRules.get ⟨i, h2⟩).Message =
          (c.config.Rejection.Rules.get ⟨i, h1⟩).Message ∧
      (((compileRules c).1.compiledRules.get ⟨i, h2⟩).ReasonRegex = none ↔
          (c.config.Rejection.Rules.get ⟨i, h1⟩).ReasonRegex = "") ∧
      (((compileRules c).1.compiledRules.get ⟨i, h2⟩).RolesRegex = none ↔
          (c.config.Rejection.Rules.get ⟨i, h1⟩).RolesRegex = "") ∧
      (∀ m, ((compileRules c).1.compiledRules.get ⟨i, h2⟩).ReasonRegex = some m →
          L.Compile (c.config.Rejection.Rules.get ⟨i, h1⟩).ReasonRegex = .ok m) ∧
      (∀ m, ((compileRules c).1.compiledRules.get ⟨i, h2⟩).RolesRegex = some m →
          L.Compile (c.config.Rejection.Rules.get ⟨i, h1⟩).RolesRegex = .ok m) := by
  obtain ⟨crs, hcrs, hall⟩ := compileRulesLoop_ok L c.config.Rejection.Rules [] h
  have hrules : (compileRules c).1.compiledRules = crs := by
    simpa [compileRules] using hcrs
  rw [hrules]
  refine ⟨hall.length_eq.symm, ?_⟩
  intro i h1 h2
  exact List.Forall₂.get hall h1 h2

/-- Witness of C8: three rule definitions that compile; the first has no
reason pattern and the second no roles pattern. -/
theorem compileRules_compiles_each_rule_witness :
    (compileRules (blankClient [defA, defB, defR])).2 = none ∧
    (compileRules (blankClient [defA, defB, defR])).1.compiledRules.length = 3 ∧
    ((compileRules (blankClient [defA, defB, defR])).1.compiledRules.map
      fun cr => (cr.Name, cr.ReasonRegex.isSome, cr.RolesRegex.isSome)) =
      [("A", false, true), ("B", true, false), ("R", true, true)] :=
  ⟨rfl, (compileRules_compiles_each_rule goRegexp (blankClient [defA, defB, defR]) rfl).1, by decide⟩

/-! ## Refresh of the identity and the connections -/

theorem handleEvent_closed {L : RegexpPkg} (c : Client L) (event : Event) (env : CallEnv) :
    closedOf (handleEvent c event env).2 = [] := by
  unfold handleEvent
  simp only
  split
  · rfl
  · split
    · rfl
    · split
      · rfl
      · split
        · split <;> rfl
        · rfl

theorem watchLoop_closed {L : RegexpPkg} (c : Client L) (cases : List SelectCase) :
    closedOf (watchLoop c cases).2.1 = [] := by
  induction cases generalizing c with
  | nil => rfl
  | cons sc rest ih =>
    cases sc with
    | done err => rfl
    | event event env =>
      simp only [watchLoop, closedOf_append, handleEvent_closed, ih, List.append_nil]

theorem processExistingOne_closed {L : RegexpPkg} (c : Client L) (req : AccessRequest) (env : CallEnv) :
    closedOf (processExistingOne c req env).2 = [] := by
  unfold processExistingOne
  simp only
  split
  · split <;> rfl
  · rfl

theorem processExistingLoop_closed {L : RegexpPkg} (c : Client L) (requests : List AccessRequest)
    (env : Nat → CallEnv) : closedOf (processExistingLoop c requests env).2 = [] := by
  induction requests generalizing c env with
  | nil => rfl
  | cons req rest ih =>
    simp only [processExistingLoop, closedOf_append, processExistingOne_closed, ih, List.append_nil]

theorem processExistingRequests_closed {L : RegexpPkg} (c : Client L)
    (listing : Except String (List AccessRequest)) (env : Nat → CallEnv) :
    closedOf (processExistingRequests c listing env).2.1 = [] := by
  cases listing with
  | error err => rfl
  | ok requests =>
    simp only [processExistingRequests, List.cons_append, List.nil_append, closedOf]
    exact processExistingLoop_closed c requests env

theorem WatchAccessRequests_closed {L : RegexpPkg} (c : Client L) (newWatcher : Option String)
    (listing : Except String (List AccessRequest)) (env : Nat → CallEnv) (cases : List SelectCase) :
    closedOf (WatchAccessRequests c newWatcher listing env cases).2.1 = [] ∧
    (WatchAccessRequests c newWatcher listing env cases).1.Client = c.Client := by
  cases newWatcher with
  | some err => exact ⟨rfl, rfl⟩
  | none =>
    have htrace : (WatchAccessRequests c none listing env cases).2.1 =
        [Effect.newWatcher c.Client, Effect.log .startedWatching, Effect.log .checkingExisting]
          ++ (processExistingRequests c listing env).2.1
          ++ (match (processExistingRequests c listing env).2.2 with
              | some err => [Effect.log (.errorProcessingExisting err)]
              | none => [])
          ++ (watchLoop (processExistingRequests c listing env).1 cases).2.1
          ++ (match (watchLoop (processExistingRequests c listing env).1 cases).2.2 with
              | .returned _ => [Effect.closeWatcher]
              | .waiting => []) := rfl
    have hclient : (WatchAccessRequests c none listing env cases).1 =
        (watchLoop (processExistingRequests c listing env).1 cases).1 := rfl
    have h1 : closedOf (match (processExistingRequests c listing env).2.2 with
        | some err => [Effect.log (.errorProcessingExisting err)]
        | none => []) = [] := by
      split <;> rfl
    have h2 : closedOf (match (watchLoop (processExistingRequests c listing env).1 cases).2.2 with
        | .returned _ => [Effect.closeWatcher]
        | .waiting => []) = [] := by
      split <;> rfl
    constructor
    · rw [htrace]
      simp only [closedOf_append, h1, h2, processExistingRequests_closed, watchLoop_closed]
      rfl
    · rw [hclient, (watchLoop_frame _ cases).2.2.1, (processExistingRequests_frame c listing env).2.2.1]

theorem step_watch_frame {L : RegexpPkg} (s : Sys L) (st : Step)
    (hst : ∀ dialOk now, st ≠ Step.refreshTick dialOk now) :
    closedOf (s.step st).trace = closedOf s.trace ∧ (s.step st).client.Client = s.client.Client ∧
      (s.step st).fresh = s.fresh := by
  cases st with
  | refreshTick dialOk now => exact absurd rfl (hst dialOk now)
  | watchStart newWatcher listing env =>
    unfold Sys.step
    cases hw : s.watcher with
    | notStarted =>
      simp [closedOf_append, (WatchAccessRequests_closed s.client newWatcher listing env []).1,
        (WatchAccessRequests_closed s.client newWatcher listing env []).2]
    | running conn => exact ⟨rfl, rfl, rfl⟩
    | returned err => exact ⟨rfl, rfl, rfl⟩
  | watchSelect case =>
    unfold Sys.step
    cases hw : s.watcher with
    | notStarted => exact ⟨rfl, rfl, rfl⟩
    | returned err => exact ⟨rfl, rfl, rfl⟩
    | running conn =>
      simp only
      split
      · simp [closedOf_append, closedOf, watchLoop_closed, (watchLoop_frame s.client [case]).2.2.1]
      · simp [closedOf_append, closedOf, watchLoop_closed, (watchLoop_frame s.client [case]).2.2.1]

theorem step_refresh_failed {L : RegexpPkg} (s : Sys L) (now : Time) :
    closedOf (s.step (Step.refreshTick false now)).trace = closedOf s.trace ∧
    (s.step (Step.refreshTick false now)).client.Client = s.client.Client ∧
    (s.step (Step.refreshTick false now)).fresh = s.fresh ∧
    (s.step (Step.refreshTick false now)).watcher = s.watcher := by
  simp [Sys.step, RefreshIdentity, closedOf_append, closedOf]

theorem step_refresh_ok {L : RegexpPkg} (s : Sys L) (now : Time) (k : ConnId)
    (hk : s.client.Client = some k) :
    closedOf (s.step (Step.refreshTick true now)).trace = closedOf s.trace ++ [k] ∧
    (s.step (Step.refreshTick true now)).client.Client = some s.fresh ∧
    (s.step (Step.refreshTick true now)).fresh = s.fresh + 1 ∧
    (s.step (Step.refreshTick true now)).watcher = s.watcher := by
  simp [Sys.step, RefreshIdentity, closedOf_append, closedOf, hk]

theorem step_watcher {L : RegexpPkg} (s : Sys L) (st : Step) (conn : Option ConnId)
    (h : (s.step st).watcher = WatcherStatus.running conn) :
    s.watcher = WatcherStatus.running conn ∨ conn = s.client.Client := by
  obtain ⟨client, trace, fresh, watcher⟩ := s
  cases st with
  | refreshTick dialOk now => exact Or.inl h
  | watchStart newWatcher listing env =>
    cases watcher with
    | notStarted =>
      simp only [Sys.step] at h
      split at h
      · cases h
      · cases h
        exact Or.inr rfl
    | running c2 => exact Or.inl h
    | returned err => exact Or.inl h
  | watchSelect case =>
    cases watcher with
    | notStarted => exact Or.inl h
    | returned err => exact Or.inl h
    | running c2 =>
      simp only [Sys.step] at h
      split at h
      · cases h
      · exact Or.inl h

theorem start_inv (L : RegexpPkg) (cfg : Config) (now : Time) (s0 : Sys L)
    (h0 : Sys.start L cfg now = .ok s0) :
    s0.Inv ∧ s0.trace = [] ∧ s0.watcher = WatcherStatus.notStarted := by
  unfold Sys.start at h0
  cases hn : New L (.ok 0) cfg now with
  | error err => rw [hn] at h0; cases h0
  | ok c =>
    rw [hn] at h0
    simp only [Except.ok.injEq] at h0
    subst h0
    obtain ⟨conn, hd, hc, _⟩ := New_ok_inv L (.ok 0) cfg now c hn
    cases hd
    refine ⟨⟨0, hc, Nat.zero_lt_one, ?_, ?_⟩, rfl, rfl⟩
    · intro j hj
      cases hj
    · intro conn hw
      cases hw

theorem step_inv {L : RegexpPkg} (s : Sys L) (st : Step) (h : s.Inv) : (s.step st).Inv := by
  obtain ⟨k, hk, hfresh, hclosed, hwatch⟩ := h
  by_cases hst : ∀ dialOk now, st ≠ Step.refreshTick dialOk now
  · obtain ⟨h1, h2, h3⟩ := step_watch_frame s st hst
    refine ⟨k, by rw [h2, hk], by rw [h3]; exact hfresh, by rw [h1]; exact hclosed, ?_⟩
    intro conn hw
    rw [h1]
    rcases step_watcher s st conn hw with hw2 | hw2
    · exact hwatch conn hw2
    · exact Or.inl (by rw [hw2, hk])
  · simp only [ne_eq, not_forall, not_not] at hst
    obtain ⟨dialOk, now, hst⟩ := hst
    subst hst
    cases dialOk with
    | false =>
      obtain ⟨h1, h2, h3, h4⟩ := step_refresh_failed s now
      refine ⟨k, by rw [h2, hk], by rw [h3]; exact hfresh, by rw [h1]; exact hclosed, ?_⟩
      intro conn hw
      rw [h1]
      rw [h4] at hw
      exact hwatch conn hw
    | true =>
      obtain ⟨h1, h2, h3, h4⟩ := step_refresh_ok s now k hk
      refine ⟨s.fresh, h2, by rw [h3]; exact Nat.lt_succ_self _, ?_, ?_⟩
      · intro j hj
        rw [h1, List.mem_append, List.mem_singleton] at hj
        rcases hj with hj | hj
        · exact Nat.lt_trans (hclosed j hj) hfresh
        · rw [hj]; exact hfresh
      · intro conn hw
        rw [h4] at hw
        rw [h1]
        rcases hwatch conn hw with hc | ⟨j, hj, hc⟩
        · exact Or.inr ⟨k, by simp, hc⟩
        · exact Or.inr ⟨j, by simp [hj], hc⟩

theorem run_inv {L : RegexpPkg} (s : Sys L) (steps : List Step) (h : s.Inv) : (s.run steps).Inv := by
  induction steps generalizing s with
  | nil => exact h
  | cons st rest ih => exact ih (s.step st) (step_inv s st h)

theorem run_closed_without_refresh {L : RegexpPkg} (s : Sys L) (steps : List Step)
    (h : ∀ now, Step.refreshTick true now ∉ steps) :
    closedOf (s.run steps).trace = closedOf s.trace := by
  induction steps generalizing s with
  | nil => rfl
  | cons st rest ih =>
    simp only [Sys.run]
    rw [ih (s.step st) (fun now hm => h now (List.mem_cons_of_mem _ hm))]
    by_cases hst : ∀ dialOk now, st ≠ Step.refreshTick dialOk now
    · exact (step_watch_frame s st hst).1
    · simp only [ne_eq, not_forall, not_not] at hst
      obtain ⟨dialOk, now, hst⟩ := hst
      subst hst
      cases dialOk with
      | false => exact (step_refresh_failed s now).1
      | true => exact absurd (List.mem_cons_self _ _) (h now)

/-- C9 (counterexample).  The watcher subscribes on connection `0`, then one
refresh cycle succeeds: the watcher is still running with the subscription it
established on connection `0`, and connection `0` has been closed. -/
theorem subscription_connection_closed_while_watching :
    Sys.start goRegexp (exampleConfig [defJ]) 0 = .ok sysExample ∧
    (sysExample.run [Step.watchStart none (.ok []) envOk, Step.refreshTick true 50]).watcher =
      WatcherStatus.running (some 0) ∧
    0 ∈ closedOf (sysExample.run [Step.watchStart none (.ok []) envOk,
      Step.refreshTick true 50]).trace :=
  ⟨rfl, rfl, by decide⟩

/-- C9 (amended).  In every state the process reaches by refresh cycles
interleaved with watcher steps: the client's current connection has not been
closed; a step closes a connection only if it is a refresh cycle whose new
connection was established, and then it closes the previous connection and
the new, open one is current; without a successful refresh cycle no
connection is closed; and a successful refresh cycle leaves a running watcher
running while the connection its subscription was established on is
closed. -/
theorem refresh_closes_only_replaced_connection (L : RegexpPkg) (cfg : Config) (now : Time)
    (s0 : Sys L) (h0 : Sys.start L cfg now = .ok s0) (steps : List Step) :
    (∃ k, (s0.run steps).client.Client = some k ∧ k ∉ closedOf (s0.run steps).trace) ∧
    (∀ st, closedOf ((s0.run steps).step st).trace ≠ closedOf (s0.run steps).trace →
      ∃ now2 k, st = Step.refreshTick true now2 ∧ (s0.run steps).client.Client = some k ∧
        closedOf ((s0.run steps).step st).trace = closedOf (s0.run steps).trace ++ [k] ∧
        ((s0.run steps).step st).client.Client = some (s0.run steps).fresh ∧
        (s0.run steps).fresh ∉ closedOf ((s0.run steps).step st).trace) ∧
    ((∀ now2, Step.refreshTick true now2 ∉ steps) → closedOf (s0.run steps).trace = []) ∧
    (∀ conn now2, (s0.run steps).watcher = WatcherStatus.running (some conn) →
      ((s0.run steps).step (Step.refreshTick true now2)).watcher = WatcherStatus.running (some conn) ∧
      conn ∈ closedOf ((s0.run steps).step (Step.refreshTick true now2)).trace) := by
  obtain ⟨hinv0, htrace0, _⟩ := start_inv L cfg now s0 h0
  have hinv := run_inv s0 steps hinv0
  obtain ⟨k, hk, hfresh, hclosed, hwatch⟩ := hinv
  refine ⟨⟨k, hk, fun hmem => Nat.lt_irrefl k (hclosed k hmem)⟩, ?_, ?_, ?_⟩
  · intro st hne
    by_cases hst : ∀ dialOk now, st ≠ Step.refreshTick dialOk now
    · exact absurd (step_watch_frame _ st hst).1 hne
    · simp only [ne_eq, not_forall, not_not] at hst
      obtain ⟨dialOk, now2, hst⟩ := hst
      subst hst
      cases dialOk with
      | false => exact absurd (step_refresh_failed _ now2).1 hne
      | true =>
        obtain ⟨h1, h2, _, _⟩ := step_refresh_ok (s0.run steps) now2 k hk
        refine ⟨now2, k, rfl, hk, h1, h2, ?_⟩
        rw [h1, List.mem_append, List.mem_singleton]
        rintro (hm | hm)
        · exact Nat.lt_asymm (hclosed _ hm) hfresh
        · rw [hm] at hfresh
          exact Nat.lt_irrefl k hfresh
  · intro hno
    rw [run_closed_without_refresh s0 steps hno, htrace0]
    rfl
  · intro conn now2 hw
    obtain ⟨h1, _, _, h4⟩ := step_refresh_ok (s0.run steps) now2 k hk
    refine ⟨by rw [h4]; exact hw, ?_⟩
    rw [h1, List.mem_append, List.mem_singleton]
    rcases hwatch (some conn) hw with hc | ⟨j, hj, hc⟩
    · cases hc
      exact Or.inr rfl
    · cases hc
      exact Or.inl hj

/-- Witness of C9: the process started with the justification rule; the
watcher subscribes, one refresh fails, one succeeds. -/
theorem refresh_closes_only_replaced_connection_witness :
    Sys.start goRegexp (exampleConfig [defJ]) 0 = .ok sysExample ∧
    (sysExample.run stepsExample).client.Client = some 1 ∧
    closedOf (sysExample.run stepsExample).trace = [0] ∧
    ∃ k, (sysExample.run stepsExample).client.Client = some k ∧
      k ∉ closedOf (sysExample.run stepsExample).trace :=
  ⟨rfl, rfl, by decide,
    (refresh_closes_only_replaced_connection goRegexp (exampleConfig [defJ]) 0 sysExample rfl
      stepsExample).1⟩

/-- C10.  When establishing the new connection fails, `RefreshIdentity`
returns an error, closes nothing and leaves the connection, the configuration,
the compiled rules, the time of the last request and `LastRefresh` as they
were, and sets `TeleportConnected` and `IdentityValid` to false; the
connection of the client changes only in a call whose new connection was
established, which returns no error. -/
theorem RefreshIdentity_failure_keeps_connection :
    (∀ (L : RegexpPkg) (c : Client L) (err : String) (now : Time),
      (RefreshIdentity c (.error err) now).2.2 ≠ none ∧
      (RefreshIdentity c (.error err) now).1.Client = c.Client ∧
      closedOf (RefreshIdentity c (.error err) now).2.1 = [] ∧
      (RefreshIdentity c (.error err) now).1.config = c.config ∧
      (RefreshIdentity c (.error err) now).1.compiledRules = c.compiledRules ∧
      (RefreshIdentity c (.error err) now).1.lastRequestTime = c.lastRequestTime ∧
      (RefreshIdentity c (.error err) now).1.healthStatus.LastRefresh = c.healthStatus.LastRefresh ∧
      (RefreshIdentity c (.error err) now).1.healthStatus.TeleportConnected = false ∧
      (RefreshIdentity c (.error err) now).1.healthStatus.IdentityValid = false) ∧
    (∀ (L : RegexpPkg) (c : Client L) (dial : Except String ConnId) (now : Time),
      ((RefreshIdentity c dial now).1.Client ≠ c.Client ∨
        closedOf (RefreshIdentity c dial now).2.1 ≠ []) →
      ∃ conn, dial = .ok conn ∧ (RefreshIdentity c dial now).1.Client = some conn ∧
        (RefreshIdentity c dial now).2.2 = none) ∧
    ((RefreshIdentity (clientWith [defJ]) (.error "dial tcp: connection refused") 30).1.Client = some 0 ∧
      (RefreshIdentity (clientWith [defJ]) (.error "dial tcp: connection refused") 30).1.healthStatus =
        { TeleportConnected := false, IdentityValid := false, LastRefresh := 0 } ∧
      (RefreshIdentity (clientWith [defJ]) (.ok 1) 30).1.Client = some 1 ∧
      closedOf (RefreshIdentity (clientWith [defJ]) (.ok 1) 30).2.1 = [0]) := by
  refine ⟨?_, ?_, rfl, rfl, rfl, rfl⟩
  · intro L c err now
    refine ⟨?_, rfl, rfl, rfl, rfl, rfl, rfl, rfl, rfl⟩
    simp [RefreshIdentity]
  · intro L c dial now h
    cases dial with
    | error err =>
      rcases h with h | h
      · exact absurd rfl h
      · exact absurd rfl h
    | ok conn => exact ⟨conn, rfl, rfl, rfl⟩

/-! ## Policy evaluation: roles without a roles matcher, and concatenation -/

theorem roleStage_of_no_matcher (L : RegexpPkg) (rule : CompiledRule L) (req : AccessRequest)
    (h : rule.RolesRegex.isNone = true) : Spec.roleStage L rule req = true := by
  unfold Spec.roleStage
  cases hr : rule.RolesRegex with
  | none => rfl
  | some m => rw [hr] at h; cases h

theorem shouldRejectLoop_append (L : RegexpPkg) (rs1 rs2 : List (CompiledRule L)) (q : AccessRequest) :
    shouldRejectLoop L (rs1 ++ rs2) q =
      match shouldRejectLoop L rs1 q with
      | some r => some r
      | none => shouldRejectLoop L rs2 q := by
  induction rs1 with
  | nil => rfl
  | cons rule rest ih =>
    rw [List.cons_append, shouldRejectLoop_cons, shouldRejectLoop_cons, ih]
    by_cases h : (Spec.roleStage L rule q && reasonRejects L rule q) = true
    · rw [if_pos h, if_pos h]
    · rw [if_neg h, if_neg h]

/-- C12.  When no compiled rule has a roles matcher, two requests with the same
reason get the same decision from `shouldReject` whatever their requested
roles are (also when one has none), and the role stage of every rule passes
for both. -/
theorem shouldReject_same_reason_without_roles_matcher (L : RegexpPkg) (c : Client L)
    (q1 q2 : AccessRequest)
    (hroles : c.compiledRules.all (fun r => r.RolesRegex.isNone) = true)
    (hreason : q1.RequestReason = q2.RequestReason) :
    shouldReject c q1 = shouldReject c q2 ∧
    ∀ r ∈ c.compiledRules, Spec.roleStage L r q1 = true ∧ Spec.roleStage L r q2 = true := by
  have hstage : ∀ r ∈ c.compiledRules, ∀ q, Spec.roleStage L r q = true :=
    fun r hr q => roleStage_of_no_matcher L r q (List.all_eq_true.1 hroles r hr)
  refine ⟨?_, fun r hr => ⟨hstage r hr q1, hstage r hr q2⟩⟩
  unfold shouldReject
  rw [shouldRejectLoop_eq_find, shouldRejectLoop_eq_find]
  apply find_congr_on
  intro r hr
  rw [hstage r hr q1, hstage r hr q2]
  unfold reasonRejects
  rw [hreason]

/-- Witness of C12: rules B and J have no roles pattern; the reason `"please"`
with the role `editor` and with no role at all. -/
theorem shouldReject_same_reason_without_roles_matcher_witness :
    (clientWith [defB, defJ]).compiledRules.all (fun r => r.RolesRegex.isNone) = true ∧
    reqPlease.RequestReason = reqPleaseNoRoles.RequestReason ∧
    reqPlease.Roles ≠ reqPleaseNoRoles.Roles ∧
    shouldReject (clientWith [defB, defJ]) reqPlease =
      shouldReject (clientWith [defB, defJ]) reqPleaseNoRoles ∧
    ((shouldReject (clientWith [defB, defJ]) reqPleaseNoRoles).map fun r => r.Name) = some "B" :=
  ⟨rfl, rfl, by decide,
    (shouldReject_same_reason_without_roles_matcher goRegexp (clientWith [defB, defJ]) reqPlease
      reqPleaseNoRoles rfl rfl).1, rfl⟩

/-- C14.  The decision of `shouldReject` on the rule list `rs1 ++ rs2` is the
decision on `rs1` when that is a rule, and the decision on `rs2` otherwise; so
a denial is not changed by rules appended to the list, and the decision on
the empty list is none.  With the rules `[J]` the request `reqPlease` is
denied by J, and it still is with `[J, B]`. -/
theorem shouldReject_append :
    (∀ (L : RegexpPkg) (c : Client L) (rs1 rs2 : List (CompiledRule L)) (q : AccessRequest),
      shouldReject { c with compiledRules := rs1 ++ rs2 } q =
        match shouldReject { c with compiledRules := rs1 } q with
        | some r => some r
        | none => shouldReject { c with compiledRules := rs2 } q) ∧
    (∀ (L : RegexpPkg) (c : Client L) (rs1 rs2 : List (CompiledRule L)) (q : AccessRequest)
      (r : CompiledRule L),
      shouldReject { c with compiledRules := rs1 } q = some r →
      shouldReject { c with compiledRules := rs1 ++ rs2 } q = some r) ∧
    (∀ (L : RegexpPkg) (c : Client L) (q : AccessRequest),
      shouldReject ({ c with compiledRules := [] } : Client L) q = none) ∧
    (∃ j b, (clientWith [defJ]).compiledRules = [j] ∧ (clientWith [defB]).compiledRules = [b] ∧
      (clientWith [defJ, defB]).compiledRules = [j] ++ [b] ∧
      shouldReject (clientWith [defJ]) reqPlease = some j ∧
      shouldReject (clientWith [defJ, defB]) reqPlease = some j) := by
  refine ⟨?_, ?_, ?_, _, _, rfl, rfl, rfl, rfl, rfl⟩
  · intro L c rs1 rs2 q
    exact shouldRejectLoop_append L rs1 rs2 q
  · intro L c rs1 rs2 q r h
    have h2 := shouldRejectLoop_append L rs1 rs2 q
    unfold shouldReject at h ⊢
    simp only at h ⊢
    rw [h2, h]
  · intro L c q
    rfl

/-! ## The watcher: when it returns -/

theorem subscriptionsOf_append (a b : List Effect) :
    subscriptionsOf (a ++ b) = subscriptionsOf a ++ subscriptionsOf b := by
  induction a with
  | nil => rfl
  | cons e rest ih => cases e <;> simp [subscriptionsOf, ih]

theorem handleEvent_subscriptions {L : RegexpPkg} (c : Client L) (event : Event) (env : CallEnv) :
    subscriptionsOf (handleEvent c event env).2 = [] := by
  unfold handleEvent
  simp only
  split
  · rfl
  · split
    · rfl
    · split
      · rfl
      · split
        · split <;> rfl
        · rfl

theorem watchLoop_subscriptions {L : RegexpPkg} (c : Client L) (cases : List SelectCase) :
    subscriptionsOf (watchLoop c cases).2.1 = [] := by
  induction cases generalizing c with
  | nil => rfl
  | cons sc rest ih =>
    cases sc with
    | done err => rfl
    | event event env =>
      simp only [watchLoop, subscriptionsOf_append, handleEvent_subscriptions, ih, List.append_nil]

theorem processExistingOne_subscriptions {L : RegexpPkg} (c : Client L) (req : AccessRequest)
    (env : CallEnv) : subscriptionsOf (processExistingOne c req env).2 = [] := by
  unfold processExistingOne
  simp only
  split
  · split <;> rfl
  · rfl

theorem processExistingLoop_subscriptions {L : RegexpPkg} (c : Client L)
    (requests : List AccessRequest) (env : Nat → CallEnv) :
    subscriptionsOf (processExistingLoop c requests env).2 = [] := by
  induction requests generalizing c env with
  | nil => rfl
  | cons req rest ih =>
    simp only [processExistingLoop, subscriptionsOf_append, processExistingOne_subscriptions, ih,
      List.append_nil]

theorem processExistingRequests_subscriptions {L : RegexpPkg} (c : Client L)
    (listing : Except String (List AccessRequest)) (env : Nat → CallEnv) :
    subscriptionsOf (processExistingRequests c listing env).2.1 = [] := by
  cases listing with
  | error err => rfl
  | ok requests =>
    simp only [processExistingRequests, List.cons_append, List.nil_append, subscriptionsOf]
    exact processExistingLoop_subscriptions c requests env

theorem WatchAccessRequests_subscriptions {L : RegexpPkg} (c : Client L)
    (newWatcher : Option String) (listing : Except String (List AccessRequest))
    (env : Nat → CallEnv) (cases : List SelectCase) :
    subscriptionsOf (WatchAccessRequests c newWatcher listing env cases).2.1 = [c.Client] := by
  cases newWatcher with
  | some err => rfl
  | none =>
    have htrace : (WatchAccessRequests c none listing env cases).2.1 =
        [Effect.newWatcher c.Client, Effect.log .startedWatching, Effect.log .checkingExisting]
          ++ (processExistingRequests c listing env).2.1
          ++ (match (processExistingRequests c listing env).2.2 with
              | some err => [Effect.log (.errorProcessingExisting err)]
              | none => [])
          ++ (watchLoop (processExistingRequests c listing env).1 cases).2.1
          ++ (match (watchLoop (processExistingRequests c listing env).1 cases).2.2 with
              | .returned _ => [Effect.closeWatcher]
              | .waiting => []) := rfl
    have h1 : subscriptionsOf (match (processExistingRequests c listing env).2.2 with
        | some err => [Effect.log (.errorProcessingExisting err)]
        | none => []) = [] := by
      split <;> rfl
    have h2 : subscriptionsOf
        (match (watchLoop (processExistingRequests c listing env).1 cases).2.2 with
        | .returned _ => [Effect.closeWatcher]
        | .waiting => []) = [] := by
      split <;> rfl
    rw [htrace]
    simp only [subscriptionsOf_append, h1, h2, processExistingRequests_subscriptions,
      watchLoop_subscriptions]
    rfl

theorem watchLoop_outcome {L : RegexpPkg} (c : Client L) (cases : List SelectCase) :
    ((∀ err, SelectCase.done err ∉ cases) → (watchLoop c cases).2.2 = WatchOutcome.waiting) ∧
    (∀ err, (watchLoop c cases).2.2 = WatchOutcome.returned err → SelectCase.done err ∈ cases) := by
  induction cases generalizing c with
  | nil =>
    refine ⟨fun _ => rfl, ?_⟩
    intro err h
    cases h
  | cons sc rest ih =>
    cases sc with
    | done err =>
      refine ⟨fun h => absurd (List.mem_cons_self _ _) (h err), ?_⟩
      intro err2 h
      simp only [watchLoop, WatchOutcome.returned.injEq] at h
      subst h
      exact List.mem_cons_self _ _
    | event event env =>
      obtain ⟨h1, h2⟩ := ih (handleEvent c event env).1
      refine ⟨fun h => h1 (fun err hm => h err (List.mem_cons_of_mem _ hm)), ?_⟩
      intro err h
      exact List.mem_cons_of_mem _ (h2 err h)

theorem selectCases_no_done (occs : List Occurrence) (ended : Bool)
    (h : ∀ err, Occurrence.cancelled err ∉ occs) :
    ∀ err, SelectCase.done err ∉ selectCases ended occs := by
  induction occs generalizing ended with
  | nil =>
    intro err hm
    cases hm
  | cons o rest ih =>
    have hrest : ∀ err, Occurrence.cancelled err ∉ rest :=
      fun err hm => h err (List.mem_cons_of_mem _ hm)
    cases o with
    | delivers event env =>
      intro err hm
      simp only [selectCases] at hm
      split at hm
      · exact ih ended hrest err hm
      · rcases List.mem_cons.1 hm with hm | hm
        · cases hm
        · exact ih ended hrest err hm
    | streamEnds e =>
      intro err hm
      exact ih true hrest err hm
    | cancelled e => exact absurd (List.mem_cons_self _ _) (h e)

theorem WatchAccessRequests_outcome {L : RegexpPkg} (c : Client L)
    (listing : Except String (List AccessRequest)) (env : Nat → CallEnv) (cases : List SelectCase) :
    (WatchAccessRequests c none listing env cases).1.healthStatus = c.healthStatus ∧
    ((∀ err, SelectCase.done err ∉ cases) →
      (WatchAccessRequests c none listing env cases).2.2 = WatchOutcome.waiting) ∧
    (∀ err, (WatchAccessRequests c none listing env cases).2.2 = WatchOutcome.returned err →
      SelectCase.done err ∈ cases) := by
  have hclient : (WatchAccessRequests c none listing env cases).1 =
      (watchLoop (processExistingRequests c listing env).1 cases).1 := rfl
  have hout : (WatchAccessRequests c none listing env cases).2.2 =
      (watchLoop (processExistingRequests c listing env).1 cases).2.2 := rfl
  rw [hclient, hout]
  refine ⟨?_, (watchLoop_outcome _ cases).1, (watchLoop_outcome _ cases).2⟩
  rw [(watchLoop_frame _ cases).2.2.2, (processExistingRequests_frame c listing env).2.2.2]

/-- C13 (counterexample).  The subscription is established, one event is
delivered and then the event stream terminates while the context is not
cancelled: `WatchAccessRequests` has not returned (it is blocked in `select`)
and `TeleportConnected` is still true. -/
theorem WatchAccessRequests_blocks_when_stream_ends :
    (clientWith [defJ]).healthStatus.TeleportConnected = true ∧
    (WatchAccessRequests (clientWith [defJ]) none (.ok []) envOk
      (selectCases false occsStreamEnds)).2.2 = WatchOutcome.waiting ∧
    (WatchAccessRequests (clientWith [defJ]) none (.ok []) envOk
      (selectCases false occsStreamEnds)).1.healthStatus.TeleportConnected = true :=
  ⟨rfl, rfl, rfl⟩

/-- C13 (amended).  When the subscription cannot be established,
`WatchAccessRequests` returns an error, sets `TeleportConnected` to false and
does nothing but the one `NewWatcher` call: no request is listed, evaluated or
denied.  When the subscription is established, it leaves the health status as
it was, calls `NewWatcher` exactly once, and returns only when the context is
done, with the context's error; as long as the context is not cancelled it
stays blocked in `select`, also after the event stream has terminated. -/
theorem WatchAccessRequests_returns_on_failed_subscription_or_cancel :
    (∀ (L : RegexpPkg) (c : Client L) (err : String) (listing : Except String (List AccessRequest))
      (env : Nat → CallEnv) (cases : List SelectCase),
      (∃ e, (WatchAccessRequests c (some err) listing env cases).2.2 = WatchOutcome.returned e) ∧
      (WatchAccessRequests c (some err) listing env cases).1.healthStatus.TeleportConnected = false ∧
      (WatchAccessRequests c (some err) listing env cases).2.1 = [Effect.newWatcher c.Client] ∧
      subscriptionsOf (WatchAccessRequests c (some err) listing env cases).2.1 = [c.Client] ∧
      listingsOf (WatchAccessRequests c (some err) listing env cases).2.1 = [] ∧
      evaluatedOf (WatchAccessRequests c (some err) listing env cases).2.1 = [] ∧
      transitionsOf (WatchAccessRequests c (some err) listing env cases).2.1 = []) ∧
    (∀ (L : RegexpPkg) (c : Client L) (listing : Except String (List AccessRequest))
      (env : Nat → CallEnv) (cases : List SelectCase),
      (WatchAccessRequests c none listing env cases).1.healthStatus = c.healthStatus ∧
      subscriptionsOf (WatchAccessRequests c none listing env cases).2.1 = [c.Client] ∧
      ((∀ e, SelectCase.done e ∉ cases) →
        (WatchAccessRequests c none listing env cases).2.2 = WatchOutcome.waiting) ∧
      (∀ e, (WatchAccessRequests c none listing env cases).2.2 = WatchOutcome.returned e →
        SelectCase.done e ∈ cases)) ∧
    (∀ (L : RegexpPkg) (c : Client L) (listing : Except String (List AccessRequest))
      (env : Nat → CallEnv) (occs : List Occurrence),
      (∀ e, Occurrence.cancelled e ∉ occs) →
      (WatchAccessRequests c none listing env (selectCases false occs)).2.2 = WatchOutcome.waiting ∧
      (WatchAccessRequests c none listing env (selectCases false occs)).1.healthStatus =
        c.healthStatus) := by
  refine ⟨?_, ?_, ?_⟩
  · intro L c err listing env cases
    exact ⟨⟨_, rfl⟩, rfl, rfl, rfl, rfl, rfl, rfl⟩
  · intro L c listing env cases
    obtain ⟨h1, h2, h3⟩ := WatchAccessRequests_outcome c listing env cases
    exact ⟨h1, WatchAccessRequests_subscriptions c none listing env cases, h2, h3⟩
  · intro L c listing env occs hocc
    obtain ⟨h1, h2, _⟩ := WatchAccessRequests_outcome c listing env (selectCases false occs)
    exact ⟨h2 (selectCases_no_done occs false hocc), h1⟩

/-! ## The identity manager: what the update channel delivers -/

theorem refreshCredentials_full (m : Manager) (v : Cred) (stat : Option String) (loaded : Cred)
    (hch : m.credUpdateCh = { cap := 1, buf := [v] }) :
    (m.refreshCredentials stat loaded).1.credUpdateCh = { cap := 1, buf := [v] } ∧
    (m.refreshCredentials stat loaded).1.currentCreds =
      match stat with
      | none => some loaded
      | some _ => m.currentCreds := by
  cases stat with
  | some err => exact ⟨hch, rfl⟩
  | none =>
    simp [Manager.refreshCredentials, Manager.loadCredentials, CredChan.trySend, hch]

theorem startLoop_full (m : Manager) (v cur : Cred) (cases : List StartCase)
    (hch : m.credUpdateCh = { cap := 1, buf := [v] }) (hcur : m.currentCreds = some cur)
    (hticks : onlyTicks cases = true) :
    (m.startLoop cases).1.credUpdateCh = { cap := 1, buf := [v] } ∧
    (m.startLoop cases).1.currentCreds = some (lastLoaded cur cases) ∧
    (m.startLoop cases).2 = StartOutcome.waiting := by
  induction cases generalizing m cur with
  | nil => exact ⟨hch, hcur, rfl⟩
  | cons sc rest ih =>
    cases sc with
    | ctxDone err => cases hticks
    | stop => cases hticks
    | tick stat loaded =>
      obtain ⟨h1, h2⟩ := refreshCredentials_full m v stat loaded hch
      cases stat with
      | none => exact ih (m.refreshCredentials none loaded).1 loaded h1 h2 hticks
      | some err => exact ih (m.refreshCredentials (some err) loaded).1 cur h1 (h2.trans hcur) hticks

theorem receive_full (m : Manager) (v : Cred) (hch : m.credUpdateCh = { cap := 1, buf := [v] }) :
    m.receive = some (v, { m with credUpdateCh := { cap := 1, buf := [] } }) ∧
    ({ m with credUpdateCh := { cap := 1, buf := [] } } : Manager).receive = none := by
  simp [Manager.receive, Manager.CredentialUpdates, CredChan.recv, hch]

/-- C11 (counterexample).  `Start` publishes credentials `1`, one refresh
publishes credentials `2`, nothing is read in between: `GetCredentials`
returns `2`, the most recently published credentials, but the next value a
consumer receives from the update channel is `1`. -/
theorem update_channel_delivers_first_not_latest :
    ((NewManager "/etc/identity" 3600).Start 1 [StartCase.tick none 2]).1.GetCredentials = some 2 ∧
    (((NewManager "/etc/identity" 3600).Start 1 [StartCase.tick none 2]).1.receive.map
      fun p => p.1) = some 1 ∧
    (((NewManager "/etc/identity" 3600).Start 1 [StartCase.tick none 2]).1.receive.map
      fun p => p.1) ≠
      ((NewManager "/etc/identity" 3600).Start 1 [StartCase.tick none 2]).1.GetCredentials := by
  decide

/-- C11 (amended).  After the initial publication of `Start` with credentials
`c0` followed by any number of ticks of the ticker, with no read in between,
`Start` is still running, the next value a consumer receives from
`CredentialUpdates` is `c0`, the first one published, and after that read the
channel is empty; `GetCredentials` returns the credentials of the last
successful refresh (`c0` if there was none).  The same holds after a read:
from a manager whose channel is empty, a successful refresh with `c1` followed
by any number of ticks leaves `c1` as the next value received. -/
theorem update_channel_keeps_first_unread (path : String) (interval : Int) (c0 : Cred)
    (ticks : List StartCase) (hticks : onlyTicks ticks = true) :
    (((NewManager path interval).Start c0 ticks).2 = StartOutcome.waiting ∧
      ((NewManager path interval).Start c0 ticks).1.GetCredentials = some (lastLoaded c0 ticks) ∧
      ∃ m2, ((NewManager path interval).Start c0 ticks).1.receive = some (c0, m2) ∧
        m2.receive = none ∧ m2.GetCredentials = some (lastLoaded c0 ticks)) ∧
    (∀ (m : Manager) (c1 : Cred), m.credUpdateCh = { cap := 1, buf := [] } →
      ((m.refreshCredentials none c1).1.startLoop ticks).1.GetCredentials =
        some (lastLoaded c1 ticks) ∧
      ∃ m2, ((m.refreshCredentials none c1).1.startLoop ticks).1.receive = some (c1, m2) ∧
        m2.receive = none ∧ m2.GetCredentials = some (lastLoaded c1 ticks)) := by
  constructor
  · have hstart : (NewManager path interval).Start c0 ticks =
        Manager.startLoop
          { identityPath := path, refreshInterval := interval, currentCreds := some c0,
            credUpdateCh := { cap := 1, buf := [c0] } } ticks := rfl
    rw [hstart]
    obtain ⟨h1, h2, h3⟩ := startLoop_full
      { identityPath := path, refreshInterval := interval, currentCreds := some c0,
        credUpdateCh := { cap := 1, buf := [c0] } } c0 c0 ticks rfl rfl hticks
    obtain ⟨h4, h5⟩ := receive_full _ c0 h1
    exact ⟨h3, h2, _, h4, h5, h2⟩
  · intro m c1 hch
    have hm : (m.refreshCredentials none c1).1 =
        { m with currentCreds := some c1, credUpdateCh := { cap := 1, buf := [c1] } } := by
      simp [Manager.refreshCredentials, Manager.loadCredentials, CredChan.trySend, hch]
    rw [hm]
    obtain ⟨h1, h2, _⟩ := startLoop_full
      { m with currentCreds := some c1, credUpdateCh := { cap := 1, buf := [c1] } } c1 c1 ticks
      rfl rfl hticks
    obtain ⟨h4, h5⟩ := receive_full _ c1 h1
    exact ⟨h2, _, h4, h5, h2⟩

/-- Witness of C11: `Start` with credentials `1`, then a refresh with `2`, a
refresh whose `os.Stat` fails, and a refresh with `4`. -/
theorem update_channel_keeps_first_unread_witness :
    onlyTicks [StartCase.tick none 2, StartCase.tick (some "no such file") 3,
      StartCase.tick none 4] = true ∧
    ((NewManager "/etc/identity" 3600).Start 1
      [StartCase.tick none 2, StartCase.tick (some "no such file") 3,
        StartCase.tick none 4]).1.GetCredentials = some 4 ∧
    (((NewManager "/etc/identity" 3600).Start 1
      [StartCase.tick none 2, StartCase.tick (some "no such file") 3,
        StartCase.tick none 4]).1.receive.map fun p => p.1) = some 1 :=
  ⟨rfl,
    (update_channel_keeps_first_unread "/etc/identity" 3600 1
      [StartCase.tick none 2, StartCase.tick (some "no such file") 3, StartCase.tick none 4]
      rfl).1.2.1,
    by decide⟩

end Autoreviewer
